import Mathlib

/-!
Shallow embedding of the recommendation core of the Tourism-Recommendation-Chatbot
repository: the base recommenders and ensemble combiner (`src/models/base_models.py`,
`src/models/ensemble.py`), the sustainability reranker (`src/sustainability/weighting.py`,
`src/sustainability/sustainability_scorer.py`) and the counterfactual engine
(`src/explainability/counterfactual.py`).

Conventions of the embedding:
* Python floats are modelled as exact rationals (`ℚ`); `np.exp` (used only by the
  sigmoid weighting scheme) is kept abstract as an explicit function parameter.
* pandas DataFrames are modelled as association lists keyed by the id column, carrying
  exactly the columns the embedded code reads.
* Fallible code returns `Except PyErr _`; `PyErr` also lists the typed error names the
  design documentation postulates (`unknownUserError`, `invalidWeightError`), so that
  the error actually raised by the code can be compared against them.
* `sorted(xs, key=k, reverse=True)` (a stable descending sort) is modelled by
  `List.insertionSort` with the reflexive descending-by-key relation, which places an
  element before the first element of strictly smaller key and hence preserves the
  relative order of equal keys, exactly like Python's stable sort.
* `np.argsort(-scores)` is modelled as a deterministic descending argsort; the source
  relies on an unstable sort whose tie order is unspecified, and no theorem below
  depends on the tie order.
-/

namespace TourismRec

/-- Failure modes of the embedded code paths.  `indexError`, `valueError` and `keyError`
are the generic Python exceptions the source can actually raise; `unknownUserError` and
`invalidWeightError` are the typed failures the design documentation names (no such
classes exist in the source), included so statements can distinguish them. -/
inductive PyErr where
  | indexError
  | valueError
  | keyError
  | unknownUserError
  | invalidWeightError
  deriving DecidableEq

instance {ε α : Type} [DecidableEq ε] [DecidableEq α] : DecidableEq (Except ε α) := fun x y =>
  match x, y with
  | .error a, .error b =>
    if h : a = b then .isTrue (by rw [h]) else .isFalse (by simp [h])
  | .ok a, .ok b =>
    if h : a = b then .isTrue (by rw [h]) else .isFalse (by simp [h])
  | .error _, .ok _ => .isFalse (by simp)
  | .ok _, .error _ => .isFalse (by simp)

/-- A recommendation dictionary as produced by
`BaseRecommender._format_recommendations` (base_models.py lines 53-69) and consumed by
the reranker.  `sustainability_score = none` models a dictionary missing that key
(weighting.py line 147 checks `"sustainability_score" in rec`). -/
structure Rec where
  destination_id : ℤ
  name : String
  country : String
  sustainability_score : Option ℚ
  landscape : String
  deriving DecidableEq, Inhabited

/-- A minimal concrete recommendation dictionary, used to instantiate witnesses and
counterexamples. -/
def plainRec (i : ℤ) (s : ℚ) : Rec :=
  { destination_id := i, name := "", country := "", sustainability_score := some s,
    landscape := "" }

/-- Python `sorted(l, key=key, reverse=True)`: stable sort, descending by key. -/
def pySortDesc {α : Type} (key : α → ℚ) (l : List α) : List α :=
  l.insertionSort (fun a b => key b ≤ key a)

/-- `SustainabilityScorer.get_sustainability_score` (sustainability_scorer.py lines
23-29): look the destination up in the destinations table (modelled as an association
list id ↦ overall_sustainability_score, the only column this method reads); an empty
selection yields `0.0`. -/
def get_sustainability_score (destinations : List (ℤ × ℚ)) (destination_id : ℤ) : ℚ :=
  match destinations.find? (fun p => p.1 == destination_id) with
  | none => 0
  | some p => p.2

/-- `SustainabilityScorer.apply_sustainability_weighting` (sustainability_scorer.py
lines 44-91): positional base score `(n-i)/n` (`1.0` when `n ≤ 1`), sustainability
score looked up in the table and divided by 10, fixed linear blend, then a stable
descending sort by blended score. -/
def apply_sustainability_weighting (destinations : List (ℤ × ℚ))
    (recommendations : List Rec) (weight : ℚ) : List Rec :=
  let n_recs := recommendations.length
  let weighted_recs := ((List.range n_recs).zip recommendations).map (fun p =>
    let base_score : ℚ := if n_recs > 1 then ((n_recs : ℚ) - (p.1 : ℚ)) / (n_recs : ℚ) else 1
    let sustainability_score :=
      get_sustainability_score destinations p.2.destination_id / 10
    (p.2, (1 - weight) * base_score + weight * sustainability_score))
  (pySortDesc (fun q => q.2) weighted_recs).map (fun q => q.1)

/-- `SustainabilityWeighting._linear_weighting` (weighting.py lines 19-32). -/
def linear_weighting (base_score sustainability_score weight : ℚ) : ℚ :=
  (1 - weight) * base_score + weight * sustainability_score

/-- `SustainabilityWeighting._quadratic_weighting` (weighting.py lines 34-49). -/
def quadratic_weighting (base_score sustainability_score weight : ℚ) : ℚ :=
  (1 - weight) * base_score + weight * (sustainability_score ^ 2)

/-- `SustainabilityWeighting._sigmoid_weighting` (weighting.py lines 51-70), with
`np.exp` abstracted as the function parameter `exp`. -/
def sigmoid_weighting (exp : ℚ → ℚ) (base_score sustainability_score weight : ℚ) : ℚ :=
  (1 - weight) * base_score +
    weight * (1 / (1 + exp (-(10 * (sustainability_score - 1/2)))))

/-- `SustainabilityWeighting._threshold_weighting` (weighting.py lines 72-93). -/
def threshold_weighting (base_score sustainability_score weight threshold : ℚ) : ℚ :=
  if sustainability_score < threshold then
    (1 - weight) * base_score +
      weight * (sustainability_score *
        (1 - (threshold - sustainability_score) / threshold * weight))
  else
    (1 - weight) * base_score + weight * sustainability_score

/-- The `weighting_functions` dictionary built in `SustainabilityWeighting.__init__`
(weighting.py lines 10-17); a lookup of an unknown scheme name yields `none`.  The
threshold scheme is entered with its default `threshold=0.7`. -/
def weighting_functions (exp : ℚ → ℚ) (scheme : String) :
    Option (ℚ → ℚ → ℚ → ℚ) :=
  if scheme = "linear" then some linear_weighting
  else if scheme = "quadratic" then some quadratic_weighting
  else if scheme = "sigmoid" then some (sigmoid_weighting exp)
  else if scheme = "threshold" then
    some (fun b s w => threshold_weighting b s w (7/10))
  else none

/-- `SustainabilityWeighting.apply_weighting` (weighting.py lines 95-121): raises
`ValueError` for an unknown scheme, otherwise zips the two score lists and applies the
scheme pointwise.  The weight is never validated. -/
def apply_weighting (exp : ℚ → ℚ) (base_scores sustainability_scores : List ℚ)
    (scheme : String) (weight : ℚ) : Except PyErr (List ℚ) :=
  match weighting_functions exp scheme with
  | none => .error .valueError
  | some f =>
      .ok ((base_scores.zip sustainability_scores).map (fun p => f p.1 p.2 weight))

/-- `SustainabilityWeighting.apply_weighting_to_recommendations` (weighting.py lines
123-168): positional base scores `(n-i)/n`, per-recommendation sustainability score
(`x/10`, defaulting to `0.5` when the key is absent), scheme applied via
`apply_weighting`, then a stable descending sort by weighted score. -/
def apply_weighting_to_recommendations (exp : ℚ → ℚ) (recommendations : List Rec)
    (scheme : String) (weight : ℚ) : Except PyErr (List Rec) :=
  if recommendations.isEmpty then .ok []
  else
    let n_recs := recommendations.length
    let base_scores := (List.range n_recs).map
      (fun (i : ℕ) => ((n_recs : ℚ) - (i : ℚ)) / (n_recs : ℚ))
    let sustainability_scores := recommendations.map (fun r =>
      match r.sustainability_score with
      | some s => s / 10
      | none => 1/2)
    match apply_weighting exp base_scores sustainability_scores scheme weight with
    | .error e => .error e
    | .ok weighted_scores =>
        .ok ((pySortDesc (fun p => p.2)
          (recommendations.zip weighted_scores)).map (fun p => p.1))

/-- A row of the destinations table (`destinations.pkl`) restricted to the columns
`BaseRecommender._format_recommendations` reads. -/
structure DestRow where
  destination_id : ℤ
  name : String
  country : String
  overall_sustainability_score : ℚ
  landscape_type : String
  deriving DecidableEq, Inhabited

/-- The state a fitted `BaseRecommender` carries (base_models.py lines 10-27): the
binary interaction matrix (rows = users, columns = destinations), the id↔index
mapping arrays and the destinations table. -/
structure Store where
  interaction_matrix : List (List ℚ)
  user_ids : List ℤ
  dest_ids : List ℤ
  destinations : List DestRow
  deriving DecidableEq

/-- `BaseRecommender._get_user_index` (base_models.py lines 37-39):
`np.where(self.user_ids == user_id)[0][0]` — the first matching position; indexing
`[0]` into the empty match array of an absent user raises `IndexError`. -/
def get_user_index (s : Store) (user_id : ℤ) : Except PyErr Nat :=
  match s.user_ids.findIdx? (fun u => u == user_id) with
  | none => .error .indexError
  | some i => .ok i

/-- `BaseRecommender._get_destination_index` (base_models.py lines 41-43), same
`np.where(...)[0][0]` pattern on the destination id array. -/
def get_destination_index (s : Store) (dest_id : ℤ) : Except PyErr Nat :=
  match s.dest_ids.findIdx? (fun d => d == dest_id) with
  | none => .error .indexError
  | some i => .ok i

/-- `BaseRecommender._format_recommendations` (base_models.py lines 53-69): map each
destination index to its id and look the id up in the destinations table; `.iloc[0]`
on an empty selection raises `IndexError`. -/
def format_recommendations (s : Store) : List Nat → Except PyErr (List Rec)
  | [] => .ok []
  | idx :: rest =>
    let dest_id := s.dest_ids.getD idx 0
    match s.destinations.find? (fun r => r.destination_id == dest_id) with
    | none => .error .indexError
    | some row =>
      match format_recommendations s rest with
      | .error e => .error e
      | .ok recs =>
          .ok ({ destination_id := dest_id, name := row.name, country := row.country,
                 sustainability_score := some row.overall_sustainability_score,
                 landscape := row.landscape_type } :: recs)

/-- `np.sum(matrix, axis=0)` for a rectangular matrix: the list of column sums, of
length the number of columns of the first row. -/
def col_sums (m : List (List ℚ)) : List ℚ :=
  (List.range (m.headD []).length).map (fun j => (m.map (fun row => row.getD j 0)).sum)

/-- `np.argsort(-scores)`: the positions `0, …, len(scores)-1` reordered so their
scores are descending.  The source's tie order is unspecified (unstable sort); this
embedding fixes the stable order, and no theorem below depends on tie order. -/
def argsort_desc (scores : List ℚ) : List Nat :=
  pySortDesc (fun i => scores.getD i 0) (List.range scores.length)

/-- `PopularityRecommender.fit` composed with `.recommend` (base_models.py lines
79-99): popularity = column sums of the interaction matrix, destinations ordered by
descending popularity, visited destinations filtered out when `exclude_visited`, then
the first `n` are formatted. -/
def popularity_recommend (s : Store) (user_id : ℤ) (n : Nat)
    (exclude_visited : Bool) : Except PyErr (List Rec) :=
  match get_user_index s user_id with
  | .error e => .error e
  | .ok user_idx =>
    let popularity_scores := col_sums s.interaction_matrix
    let dest_indices := argsort_desc popularity_scores
    let dest_indices :=
      if exclude_visited then
        dest_indices.filter
          (fun i => !(decide (0 < (s.interaction_matrix.getD user_idx []).getD i 0)))
      else dest_indices
    format_recommendations s (dest_indices.take n)

/-- Elementwise vector sum (numpy `+` on equal-length arrays). -/
def vec_add (a b : List ℚ) : List ℚ := List.zipWith (· + ·) a b

/-- Scalar times vector (numpy broadcasting). -/
def scalar_mul (c : ℚ) (v : List ℚ) : List ℚ := v.map (fun x => c * x)

/-- `CollaborativeFilteringRecommender.recommend`, user branch, score computation
(base_models.py lines 186-208): zero out the self-similarity, take the 20 indices of
largest similarity, accumulate the similarity-weighted interaction rows of those with
positive similarity, and finally divide by `np.sum(scores)` — the sum of the
accumulated score vector itself — when it is positive. -/
def user_cf_scores (similarity_matrix interaction_matrix : List (List ℚ))
    (user_idx : Nat) : List ℚ :=
  let user_similarities := (similarity_matrix.getD user_idx []).set user_idx 0
  let similar_users := (argsort_desc user_similarities).take 20
  let scores := similar_users.foldl (fun acc v =>
      if user_similarities.getD v 0 ≤ 0 then acc
      else vec_add acc (scalar_mul (user_similarities.getD v 0)
        (interaction_matrix.getD v [])))
    (List.replicate (interaction_matrix.headD []).length 0)
  if 0 < scores.sum then scores.map (fun x => x / scores.sum) else scores

/-- Modelled from the spec's words for the user-based collaborative-filtering score
vector: the sum over the top-20 most similar users (self excluded via the zeroed
self-similarity, non-positive similarities excluded) of their similarity-weighted
interaction rows, *normalized by dividing by the sum of the similarities used*. -/
def spec_user_cf_scores (similarity_matrix interaction_matrix : List (List ℚ))
    (user_idx : Nat) : List ℚ :=
  let user_similarities := (similarity_matrix.getD user_idx []).set user_idx 0
  let used := ((argsort_desc user_similarities).take 20).filter
    (fun v => decide (0 < user_similarities.getD v 0))
  let sim_sum := (used.map (fun v => user_similarities.getD v 0)).sum
  (List.range (interaction_matrix.headD []).length).map (fun d =>
    (used.map (fun v =>
      user_similarities.getD v 0 * (interaction_matrix.getD v []).getD d 0)).sum
      / sim_sum)

/-- The amended description of the user-based collaborative-filtering score vector:
as `spec_user_cf_scores`, but normalized by the sum of the entries of the weighted-sum
vector itself (and only when that sum is positive), matching
`scores = scores / np.sum(scores)`. -/
def amended_user_cf_scores (similarity_matrix interaction_matrix : List (List ℚ))
    (user_idx : Nat) : List ℚ :=
  let user_similarities := (similarity_matrix.getD user_idx []).set user_idx 0
  let used := ((argsort_desc user_similarities).take 20).filter
    (fun v => decide (0 < user_similarities.getD v 0))
  let raw := (List.range (interaction_matrix.headD []).length).map (fun d =>
    (used.map (fun v =>
      user_similarities.getD v 0 * (interaction_matrix.getD v []).getD d 0)).sum)
  if 0 < raw.sum then raw.map (fun x => x / raw.sum) else raw

/-- `HybridRecommender.add_recommender` weight bookkeeping (ensemble.py lines 20-29):
append the raw weight, then renormalize the whole list by its sum. -/
def add_recommender (weights : List ℚ) (weight : ℚ) : List ℚ :=
  let ws := weights ++ [weight]
  let total_weight := ws.sum
  ws.map (fun w => w / total_weight)

/-- A value of the `all_recommendations` dictionary built inside
`HybridRecommender.recommend` (ensemble.py lines 55-74): the first recommendation
dictionary seen for the destination, the accumulated score, and the provenance list. -/
structure CandidateEntry where
  recommendation : Rec
  score : ℚ
  sources : List String
  deriving DecidableEq, Inhabited

/-- One iteration of the accumulation loop of `HybridRecommender.recommend` (ensemble.py
lines 61-74): a Python dict keyed by destination id, modelled as an insertion-ordered
association list.  An update in place keeps the entry's position; a new key is
appended. -/
def add_candidate (acc : List (ℤ × CandidateEntry)) (dest_id : ℤ) (score : ℚ)
    (src : String) (rec : Rec) : List (ℤ × CandidateEntry) :=
  if acc.any (fun p => p.1 == dest_id) then
    acc.map (fun p =>
      if p.1 == dest_id then
        (p.1, { p.2 with score := p.2.score + score, sources := p.2.sources ++ [src] })
      else p)
  else
    acc ++ [(dest_id, { recommendation := rec, score := score, sources := [src] })]

/-- One positional contribution of one recommender's list: used to flatten the nested
accumulation loop of `HybridRecommender.recommend` into a single stream. -/
structure Contribution where
  dest_id : ℤ
  score : ℚ
  source : String
  recommendation : Rec
  deriving DecidableEq, Inhabited

/-- Folding the dictionary-accumulation step over a stream of contributions. -/
def stream_fold (acc : List (ℤ × CandidateEntry)) (stream : List Contribution) :
    List (ℤ × CandidateEntry) :=
  stream.foldl (fun a c => add_candidate a c.dest_id c.score c.source c.recommendation) acc

/-- The contribution stream of `HybridRecommender.recommend` (ensemble.py lines
57-74): for recommender `(name, weight, recs)` and 0-indexed position `j`, the score
is `weight * (1 - j / len(recs))`. -/
def code_contributions (subs : List (String × ℚ × List Rec)) : List Contribution :=
  subs.flatMap (fun sub =>
    ((List.range sub.2.2.length).zip sub.2.2).map (fun p =>
      { dest_id := p.2.destination_id,
        score := sub.2.1 * (1 - (p.1 : ℚ) / (sub.2.2.length : ℚ)),
        source := sub.1, recommendation := p.2 }))

/-- The de-duplication core of `HybridRecommender.recommend` (ensemble.py lines
55-74), written as a stream fold from the empty dictionary. -/
def accumulate_candidates (subs : List (String × ℚ × List Rec)) :
    List (ℤ × CandidateEntry) :=
  stream_fold [] (code_contributions subs)

/-- `HybridRecommender.recommend` (ensemble.py lines 49-93) for given sub-recommender
outputs: accumulate scores per destination, stable-sort the dictionary values by
descending accumulated score, keep the top `n` recommendations, and, when the stored
sustainability weight is positive, rerank them via
`SustainabilityScorer.apply_sustainability_weighting`. -/
def hybrid_combine (scorer_destinations : List (ℤ × ℚ)) (sustainability_weight : ℚ)
    (subs : List (String × ℚ × List Rec)) (n : Nat) : List Rec :=
  let sorted := pySortDesc (fun e => e.score)
    ((accumulate_candidates subs).map (fun p => p.2))
  let top := (sorted.take n).map (fun e => e.recommendation)
  if 0 < sustainability_weight then
    apply_sustainability_weighting scorer_destinations top sustainability_weight
  else top

/-- The sequential loop asking each registered recommender for candidates
(ensemble.py lines 57-58): an exception from any recommender propagates immediately. -/
def collect_subs (n2 : Nat) :
    List (String × ℚ × (Nat → Except PyErr (List Rec))) →
      Except PyErr (List (String × ℚ × List Rec))
  | [] => .ok []
  | r :: rest =>
    match r.2.2 n2 with
    | .error e => .error e
    | .ok l =>
      match collect_subs n2 rest with
      | .error e => .error e
      | .ok subs => .ok ((r.1, r.2.1, l) :: subs)

/-- `HybridRecommender.recommend` (ensemble.py lines 49-93) with the registered
recommenders as black boxes `(name, normalized weight, candidates-for-n)`: raises
`ValueError` when none are registered, asks each recommender for `n*2` candidates
(errors propagate), then combines via `hybrid_combine`. -/
def hybrid_recommend
    (recommenders : List (String × ℚ × (Nat → Except PyErr (List Rec))))
    (scorer_destinations : List (ℤ × ℚ)) (sustainability_weight : ℚ) (n : Nat) :
    Except PyErr (List Rec) :=
  if recommenders.isEmpty then .error .valueError
  else
    match collect_subs (n * 2) recommenders with
    | .error e => .error e
    | .ok subs => .ok (hybrid_combine scorer_destinations sustainability_weight subs n)

/-- First occurrence of each value, in order of first appearance (the key order of a
Python dict built by insertion). -/
def firstSeen : List ℤ → List ℤ
  | [] => []
  | a :: l => a :: firstSeen (l.filter (fun x => x ≠ a))
termination_by l => l.length
decreasing_by
  simp only [List.length_cons]
  exact Nat.lt_succ_of_le (List.length_filter_le _ _)

/-- The accumulated entry a list of contributions to one destination produces: first
recommendation seen, total score, all provenance names in order. -/
def entry_of (cs : List Contribution) : CandidateEntry :=
  { recommendation := ((cs.map (fun c => c.recommendation)).headD default),
    score := (cs.map (fun c => c.score)).sum,
    sources := cs.map (fun c => c.source) }

/-- The contribution stream as the spec's words assign it: the candidate at 0-indexed
position `j` of a returned list of length `L` gets score `w * (L - j) / L`. -/
def spec_contributions (subs : List (String × ℚ × List Rec)) : List Contribution :=
  subs.flatMap (fun sub =>
    ((List.range sub.2.2.length).zip sub.2.2).map (fun p =>
      { dest_id := p.2.destination_id,
        score := sub.2.1 * ((sub.2.2.length : ℚ) - (p.1 : ℚ)) / (sub.2.2.length : ℚ),
        source := sub.1, recommendation := p.2 }))

/-- Modelled from the spec's words for the Ensemble Combiner's `recommend` (claim C4):
ask every registered recommender for `2n` candidates, give the candidate at position
`j` of a list of length `L` the score `w·(L-j)/L`, sum these scores per destination
across recommenders merging provenance, and return the destinations sorted descending
by accumulated score, truncated to `n`. -/
def spec_ensemble_recommend
    (recommenders : List (String × ℚ × (Nat → Except PyErr (List Rec)))) (n : Nat) :
    Except PyErr (List Rec) :=
  if recommenders.isEmpty then .error .valueError
  else
    match collect_subs (n * 2) recommenders with
    | .error e => .error e
    | .ok subs =>
      let contribs := spec_contributions subs
      let ids := firstSeen (contribs.map (fun c => c.dest_id))
      let entries := ids.map (fun d =>
        (d, entry_of (contribs.filter (fun c => c.dest_id == d))))
      .ok (((pySortDesc (fun p => p.2.score) entries).take n).map
        (fun p => p.2.recommendation))

/-- The destinations DataFrame as the counterfactual engine sees it: its column
names, and rows mapping a destination id to an association list of column values. -/
structure DestTable where
  cols : List String
  rows : List (ℤ × List (String × ℚ))
  deriving DecidableEq

/-- The mutable attributes of the recommender object that
`CounterfactualExplainer` overrides: `sustainability_weight` and `destinations`
(whose representation `α` the engine treats as opaque). -/
structure RecState (α : Type) where
  sustainability_weight : ℚ
  destinations : α
  deriving DecidableEq

/-- What a counterfactual call returns: either a `{"error": ...}` dictionary, or an
explanation with the 1-based baseline rank, the perturbed rank (`none` = "Not in top
20"), the rank change (`none` = "Dropped out"), and the moved-up / moved-down
summaries `(name, sustainability_score)`. -/
inductive CFOutput where
  | errorDict (msg : String)
  | explanation (current_rank : Nat) (counterfactual_rank : Option Nat)
      (rank_change : Option ℤ)
      (moved_up moved_down : List (String × ℚ))
  deriving DecidableEq

/-- The 1-based rank of a destination in a recommendation list (counterfactual.py
lines 50-54): position of the first entry with that id, plus one. -/
def find_rank (dest_id : ℤ) (recs : List Rec) : Option Nat :=
  (recs.findIdx? (fun r => r.destination_id == dest_id)).map (fun i => i + 1)

/-- Reading `rec["name"]` and `rec["sustainability_score"]` from a recommendation
dictionary (counterfactual.py lines 95-97); a missing key raises `KeyError`. -/
def rec_summary (r : Rec) : Except PyErr (String × ℚ) :=
  match r.sustainability_score with
  | none => .error .keyError
  | some s => .ok (r.name, s)

/-- The moved-up / moved-down computation of
`generate_sustainability_counterfactual` (counterfactual.py lines 87-105), which runs
after the override is reverted.  Note the improved-rank branch guards the loop index
against the length of the *baseline* list but indexes the *counterfactual* list, so an
out-of-range index raises `IndexError`. -/
def compute_moved (current_recommendations counterfactual_recommendations : List Rec)
    (current_rank new_rank : Nat) :
    Except PyErr (List (String × ℚ) × List (String × ℚ)) :=
  if new_rank ≠ current_rank then
    if new_rank < current_rank then
      match ((List.range' (new_rank - 1) (current_rank - new_rank)).filter
          (fun i => decide (i < current_recommendations.length))).mapM
          (fun i =>
            (match counterfactual_recommendations.get? i with
             | none => .error PyErr.indexError
             | some r => rec_summary r : Except PyErr (String × ℚ))) with
      | .error e => .error e
      | .ok moved_down => .ok ([], moved_down)
    else
      match ((List.range' current_rank (new_rank - current_rank)).filter
          (fun i => decide (i < counterfactual_recommendations.length))).mapM
          (fun i =>
            (match counterfactual_recommendations.get? (i - 1) with
             | none => .error PyErr.indexError
             | some r => rec_summary r : Except PyErr (String × ℚ))) with
      | .error e => .error e
      | .ok moved_up => .ok (moved_up, [])
  else .ok ([], [])

/-- `CounterfactualExplainer.generate_sustainability_counterfactual`
(counterfactual.py lines 23-121).  The recommendation pipeline is the black box
`run`, a function of the recommender's mutable state; the explainer's own
destinations table serves the final detail lookup (line 84, `.iloc[0]`, which raises
`IndexError` on an empty selection).  The returned pair is (recommender state after
the call or at the escaping exception, outcome).  The source saves the prior weight,
overwrites it, re-runs, and writes the prior value back only on the straight-line
path — there is no `try`/`finally`. -/
def generate_sustainability_counterfactual {α : Type}
    (run : RecState α → Except PyErr (List Rec)) (s0 : RecState α)
    (dest_id : ℤ) (target_weight : ℚ) (explainer_destinations : List DestRow) :
    RecState α × Except PyErr CFOutput :=
  match run s0 with
  | .error e => (s0, .error e)
  | .ok current_recommendations =>
    match find_rank dest_id current_recommendations with
    | none => (s0, .ok (.errorDict "Destination ID not found in current recommendations"))
    | some current_rank =>
      let original_weight := s0.sustainability_weight
      let s1 : RecState α := { s0 with sustainability_weight := target_weight }
      match run s1 with
      | .error e => (s1, .error e)
      | .ok counterfactual_recommendations =>
        let s2 : RecState α := { s1 with sustainability_weight := original_weight }
        match explainer_destinations.find? (fun r => r.destination_id == dest_id) with
        | none => (s2, .error .indexError)
        | some _dest_info =>
          match find_rank dest_id counterfactual_recommendations with
          | none =>
              (s2, .ok (.explanation current_rank none none [] []))
          | some new_rank =>
            match compute_moved current_recommendations
                counterfactual_recommendations current_rank new_rank with
            | .error e => (s2, .error e)
            | .ok moved =>
                (s2, .ok (.explanation current_rank (some new_rank)
                  (some ((current_rank : ℤ) - (new_rank : ℤ))) moved.1 moved.2))

/-- `modified_destinations.loc[id == dest_id, feature] = target_value`
(counterfactual.py line 168): update the named column of the matching rows. -/
def set_feature (rows : List (ℤ × List (String × ℚ))) (dest_id : ℤ)
    (feature : String) (value : ℚ) : List (ℤ × List (String × ℚ)) :=
  rows.map (fun p =>
    if p.1 == dest_id then
      (p.1, p.2.map (fun q => if q.1 == feature then (q.1, value) else q))
    else p)

/-- `CounterfactualExplainer.generate_feature_counterfactual` (counterfactual.py
lines 123-206).  The recommender's `destinations` attribute here has the concrete
table type, since the engine swaps in a modified copy of the explainer's table; as in
the source, the prior table is written back only when the perturbed run returns
normally. -/
def generate_feature_counterfactual
    (run : RecState DestTable → Except PyErr (List Rec)) (s0 : RecState DestTable)
    (dest_id : ℤ) (feature : String) (target_value : ℚ)
    (explainer_destinations : DestTable) :
    RecState DestTable × Except PyErr CFOutput :=
  if feature ∈ explainer_destinations.cols then
    match run s0 with
    | .error e => (s0, .error e)
    | .ok current_recommendations =>
      match find_rank dest_id current_recommendations with
      | none => (s0, .ok (.errorDict "Destination ID not found in current recommendations"))
      | some current_rank =>
        match explainer_destinations.rows.find? (fun p => p.1 == dest_id) with
        | none => (s0, .error .indexError)
        | some _dest_info =>
          let modified_destinations : DestTable :=
            { explainer_destinations with
              rows := set_feature explainer_destinations.rows dest_id feature
                target_value }
          let original_destinations := s0.destinations
          let s1 : RecState DestTable :=
            { s0 with destinations := modified_destinations }
          match run s1 with
          | .error e => (s1, .error e)
          | .ok counterfactual_recommendations =>
            let s2 : RecState DestTable :=
              { s1 with destinations := original_destinations }
            match find_rank dest_id counterfactual_recommendations with
            | none => (s2, .ok (.explanation current_rank none none [] []))
            | some new_rank =>
                (s2, .ok (.explanation current_rank (some new_rank)
                  (some ((current_rank : ℤ) - (new_rank : ℤ))) [] []))
  else (s0, .ok (.errorDict "Feature not found in destination data"))

/-- A stub recommendation pipeline for the counterfactual engine: it succeeds exactly
at sustainability weight 0.3 (returning a list containing destination 1) and raises
otherwise, so the perturbed re-run at any other weight fails. -/
def run_fails_when_weight_perturbed : RecState Unit → Except PyErr (List Rec) :=
  fun s =>
    if s.sustainability_weight = 3/10 then .ok [plainRec 1 5] else .error .valueError

/-- A concrete one-row destinations table with a single feature column. -/
def one_row_table : DestTable :=
  { cols := ["carbon_footprint_score"],
    rows := [(1, [("carbon_footprint_score", 5)])] }

/-- A stub recommendation pipeline that succeeds exactly on the unmodified
destinations table and raises on any other table, so the perturbed re-run fails. -/
def run_fails_when_table_perturbed : RecState DestTable → Except PyErr (List Rec) :=
  fun s =>
    if s.destinations = one_row_table then .ok [plainRec 1 5] else .error .valueError

/-! ### Generic facts about the stable descending sort -/

theorem pySortDesc_perm {α : Type} (key : α → ℚ) (l : List α) :
    (pySortDesc key l).Perm l :=
  List.perm_insertionSort _ l

theorem pySortDesc_eq_self {α : Type} {key : α → ℚ} {l : List α}
    (h : l.Pairwise (fun a b => key b < key a)) : pySortDesc key l = l :=
  List.Sorted.insertionSort_eq (h.imp (fun hab => le_of_lt hab))

theorem pySortDesc_map {α β : Type} (f : α → β) (key : β → ℚ) (l : List α) :
    pySortDesc key (l.map f) = (pySortDesc (fun a => key (f a)) l).map f :=
  (List.map_insertionSort (fun a b => key (f b) ≤ key (f a))
    (fun a b => key b ≤ key a) f l (fun _ _ _ _ => Iff.rfl)).symm

theorem pairwise_zip_left {α β : Type} {R : α → α → Prop} :
    ∀ (l₁ : List α) (l₂ : List β), l₁.Pairwise R →
      (l₁.zip l₂).Pairwise (fun p q => R p.1 q.1)
  | [], _, _ => by simp
  | _ :: _, [], _ => by simp
  | a :: l₁, b :: l₂, h => by
    rw [List.zip_cons_cons]
    refine List.Pairwise.cons ?_ (pairwise_zip_left l₁ l₂ h.of_cons)
    intro q hq
    exact List.rel_of_pairwise_cons h (List.of_mem_zip hq).1

theorem pairwise_zip_right {α β : Type} {R : β → β → Prop} :
    ∀ (l₁ : List α) (l₂ : List β), l₂.Pairwise R →
      (l₁.zip l₂).Pairwise (fun p q => R p.2 q.2)
  | [], _, _ => by simp
  | _ :: _, [], _ => by simp
  | a :: l₁, b :: l₂, h => by
    rw [List.zip_cons_cons]
    refine List.Pairwise.cons ?_ (pairwise_zip_right l₁ l₂ h.of_cons)
    intro q hq
    exact List.rel_of_pairwise_cons h (List.of_mem_zip hq).2

/-- The positional base scores `(n-i)/n`, `i = 0, …, n-1`, are strictly decreasing. -/
theorem base_scores_strict_anti (n : ℕ) (hn : 0 < n) :
    ((List.range n).map (fun (i : ℕ) => ((n : ℚ) - (i : ℚ)) / (n : ℚ))).Pairwise
      (fun a b => b < a) := by
  have hq : (0 : ℚ) < (n : ℚ) := by exact_mod_cast hn
  refine List.Pairwise.map _ ?_ (List.sorted_lt_range n)
  intro i j hij
  have hij' : (i : ℚ) < (j : ℚ) := by exact_mod_cast hij
  have hsub : ((n : ℚ) - (j : ℚ)) < ((n : ℚ) - (i : ℚ)) := by linarith
  rw [div_eq_mul_inv, div_eq_mul_inv]
  exact mul_lt_mul_of_pos_right hsub (inv_pos.mpr hq)

/-- Weight-0 evaluation of `SustainabilityScorer.apply_sustainability_weighting`. -/
theorem apply_sustainability_weighting_weight_zero (table : List (ℤ × ℚ))
    (recs : List Rec) (hne : recs ≠ []) :
    apply_sustainability_weighting table recs 0 = recs := by
  have hn : 0 < recs.length := List.length_pos.mpr hne
  have hq : (0 : ℚ) < (recs.length : ℚ) := by exact_mod_cast hn
  simp only [apply_sustainability_weighting]
  have hmap : ((List.range recs.length).zip recs).map (fun p =>
      (p.2, (1 - (0:ℚ)) * (if recs.length > 1
          then ((recs.length : ℚ) - (p.1 : ℚ)) / (recs.length : ℚ) else 1)
        + 0 * (get_sustainability_score table p.2.destination_id / 10))) =
      ((List.range recs.length).zip recs).map (fun p =>
        (p.2, ((recs.length : ℚ) - (p.1 : ℚ)) / (recs.length : ℚ))) := by
    refine List.map_congr_left ?_
    rintro ⟨i, r⟩ hp
    have hi : i < recs.length := List.mem_range.mp (List.of_mem_zip hp).1
    simp only
    split_ifs with h1
    · ring_nf
    · have h1' : recs.length = 1 := by omega
      have hi0 : i = 0 := by omega
      rw [h1', hi0]
      norm_num
  rw [hmap]
  have hpw : (((List.range recs.length).zip recs).map (fun p =>
      (p.2, ((recs.length : ℚ) - (p.1 : ℚ)) / (recs.length : ℚ)))).Pairwise
      (fun a b => b.2 < a.2) := by
    refine List.Pairwise.map _ ?_
      (pairwise_zip_left (List.range recs.length) recs (List.sorted_lt_range _))
    intro p q hpq
    have hpq' : (p.1 : ℚ) < (q.1 : ℚ) := by exact_mod_cast hpq
    have hsub : ((recs.length : ℚ) - (q.1 : ℚ)) < ((recs.length : ℚ) - (p.1 : ℚ)) := by
      linarith
    simp only
    rw [div_eq_mul_inv, div_eq_mul_inv]
    exact mul_lt_mul_of_pos_right hsub (inv_pos.mpr hq)
  rw [pySortDesc_eq_self hpw, List.map_map]
  have : ((fun q : Rec × ℚ => q.1) ∘ (fun p : ℕ × Rec =>
      (p.2, ((recs.length : ℚ) - (p.1 : ℚ)) / (recs.length : ℚ)))) =
      fun p : ℕ × Rec => p.2 := rfl
  rw [this]
  exact List.map_snd_zip _ _ (by simp)

/-- Weight-0 evaluation of `SustainabilityWeighting.apply_weighting_to_recommendations`
for any scheme whose weighting function returns the base score at weight 0. -/
theorem apply_weighting_to_recommendations_weight_zero (exp : ℚ → ℚ)
    (recs : List Rec) (hne : recs ≠ []) (scheme : String) (f : ℚ → ℚ → ℚ → ℚ)
    (hf : weighting_functions exp scheme = some f) (hf0 : ∀ b s, f b s 0 = b) :
    apply_weighting_to_recommendations exp recs scheme 0 = .ok recs := by
  have hn : 0 < recs.length := List.length_pos.mpr hne
  have hq : (0 : ℚ) < (recs.length : ℚ) := by exact_mod_cast hn
  have hie : recs.isEmpty = false := by
    cases recs with
    | nil => exact absurd rfl hne
    | cons a l => rfl
  simp only [apply_weighting_to_recommendations, hie, Bool.false_eq_true, if_false,
    apply_weighting, hf]
  have hws : (((List.range recs.length).map
        (fun (i : ℕ) => ((recs.length : ℚ) - (i : ℚ)) / (recs.length : ℚ))).zip
        (recs.map (fun r => match r.sustainability_score with
          | some s => s / 10
          | none => 1/2))).map (fun p => f p.1 p.2 0) =
      (List.range recs.length).map
        (fun (i : ℕ) => ((recs.length : ℚ) - (i : ℚ)) / (recs.length : ℚ)) := by
    have h1 : ∀ p ∈ (((List.range recs.length).map
        (fun (i : ℕ) => ((recs.length : ℚ) - (i : ℚ)) / (recs.length : ℚ))).zip
        (recs.map (fun r => match r.sustainability_score with
          | some s => s / 10
          | none => 1/2))), f p.1 p.2 0 = p.1 := fun p _ => hf0 p.1 p.2
    rw [List.map_congr_left h1]
    exact List.map_fst_zip _ _ (by simp)
  rw [hws]
  have hpw : (recs.zip ((List.range recs.length).map
      (fun (i : ℕ) => ((recs.length : ℚ) - (i : ℚ)) / (recs.length : ℚ)))).Pairwise
      (fun a b => b.2 < a.2) :=
    pairwise_zip_right _ _ (base_scores_strict_anti recs.length hn)
  rw [pySortDesc_eq_self hpw]
  rw [List.map_fst_zip _ _ (by simp)]

/-- C2: for every non-empty candidate list, sustainability reranking with weight 0
returns the candidates in exactly the input order — both in
`SustainabilityScorer.apply_sustainability_weighting` (hard-wired linear blend) and in
`SustainabilityWeighting.apply_weighting_to_recommendations` under every known scheme:
the blended score degenerates to the strictly decreasing positional base score and the
descending sort is stable, so the output equals the input list. -/
theorem C2_weight_zero_reproduces_input_order (exp : ℚ → ℚ) (table : List (ℤ × ℚ))
    (recs : List Rec) (hne : recs ≠ []) :
    apply_sustainability_weighting table recs 0 = recs ∧
    ∀ scheme ∈ (["linear", "quadratic", "sigmoid", "threshold"] : List String),
      apply_weighting_to_recommendations exp recs scheme 0 = .ok recs := by
  refine ⟨apply_sustainability_weighting_weight_zero table recs hne, ?_⟩
  intro scheme hscheme
  simp only [List.mem_cons, List.not_mem_nil, or_false] at hscheme
  rcases hscheme with h | h | h | h
  · subst h
    refine apply_weighting_to_recommendations_weight_zero exp recs hne _
      linear_weighting (by simp [weighting_functions]) ?_
    intro b s
    simp [linear_weighting]
  · subst h
    refine apply_weighting_to_recommendations_weight_zero exp recs hne _
      quadratic_weighting (by simp [weighting_functions]) ?_
    intro b s
    simp [quadratic_weighting]
  · subst h
    refine apply_weighting_to_recommendations_weight_zero exp recs hne _
      (sigmoid_weighting exp) (by simp [weighting_functions]) ?_
    intro b s
    simp [sigmoid_weighting]
  · subst h
    refine apply_weighting_to_recommendations_weight_zero exp recs hne _
      (fun b s w => threshold_weighting b s w (7/10)) (by simp [weighting_functions]) ?_
    intro b s
    simp only [threshold_weighting]
    split_ifs <;> ring

/-- C2 witness: the theorem applied to a concrete two-element candidate list. -/
theorem C2_witness :
    ([plainRec 1 9, plainRec 2 2] : List Rec) ≠ [] ∧
    (apply_sustainability_weighting [(1, 9), (2, 2)] [plainRec 1 9, plainRec 2 2] 0 =
        [plainRec 1 9, plainRec 2 2] ∧
      ∀ scheme ∈ (["linear", "quadratic", "sigmoid", "threshold"] : List String),
        apply_weighting_to_recommendations (fun x => x) [plainRec 1 9, plainRec 2 2]
          scheme 0 = .ok [plainRec 1 9, plainRec 2 2]) :=
  ⟨List.cons_ne_nil _ _, C2_weight_zero_reproduces_input_order (fun x => x) [(1, 9), (2, 2)]
    [plainRec 1 9, plainRec 2 2] (List.cons_ne_nil _ _)⟩

/-- C8: concrete scenario A — five candidates with destination ids `[1,2,3,4,5]` and
sustainability scores `[9,2,5,8,3]`, reranked with weight 1 under the linear scheme,
come back in the order `[1,4,3,5,2]`; this holds both for the scorer's hard-wired
linear rerank and for the weighting module's `"linear"` scheme. -/
theorem C8_scenario_A :
    ((apply_sustainability_weighting [(1,9),(2,2),(3,5),(4,8),(5,3)]
        [plainRec 1 9, plainRec 2 2, plainRec 3 5, plainRec 4 8, plainRec 5 3] 1).map
      (fun r => r.destination_id) = [1, 4, 3, 5, 2]) ∧
    ((apply_weighting_to_recommendations (fun x => x)
        [plainRec 1 9, plainRec 2 2, plainRec 3 5, plainRec 4 8, plainRec 5 3]
        "linear" 1).map (fun l => l.map (fun r => r.destination_id)) =
      .ok [1, 4, 3, 5, 2]) := by
  constructor
  · norm_num [apply_sustainability_weighting, pySortDesc, get_sustainability_score,
      plainRec, List.insertionSort, List.orderedInsert, List.find?_cons]
  · norm_num [apply_weighting_to_recommendations, apply_weighting, weighting_functions,
      linear_weighting, plainRec, pySortDesc, List.insertionSort, List.orderedInsert,
      List.range_succ, Except.map]

/-! ### C5: weight validation in `apply_weighting` -/

/-- C5 counterexample: the claim says every weight outside `[0,1]` raises
`InvalidWeightError`, but `apply_weighting` never validates the weight: at `w = 2`
with the known scheme `"linear"` it happily returns the score list `[0]`
(`(1-2)·1 + 2·(1/2) = 0`) instead of failing. -/
theorem C5_counterexample :
    apply_weighting (fun x => x) [1] [1/2] "linear" 2 = .ok [0] := by
  norm_num [apply_weighting, weighting_functions, linear_weighting]

/-- C5 amended: `apply_weighting` fails — with the untyped `ValueError`, not a typed
`InvalidWeightError` — exactly when the scheme name is unknown; the weight is never
validated, and for each of the four known schemes every weight (also outside `[0,1]`)
produces a score list. -/
theorem C5_amended_unknown_scheme_only (exp : ℚ → ℚ)
    (base_scores sustainability_scores : List ℚ) (scheme : String) (weight : ℚ) :
    (scheme ∉ (["linear", "quadratic", "sigmoid", "threshold"] : List String) →
      apply_weighting exp base_scores sustainability_scores scheme weight =
        .error .valueError) ∧
    (scheme ∈ (["linear", "quadratic", "sigmoid", "threshold"] : List String) →
      ∃ l, apply_weighting exp base_scores sustainability_scores scheme weight =
        .ok l) := by
  constructor
  · intro hmem
    simp only [List.mem_cons, List.not_mem_nil, or_false, not_or] at hmem
    obtain ⟨h1, h2, h3, h4⟩ := hmem
    simp [apply_weighting, weighting_functions, h1, h2, h3, h4]
  · intro hmem
    simp only [List.mem_cons, List.not_mem_nil, or_false] at hmem
    rcases hmem with h | h | h | h <;> subst h
    · exact ⟨(base_scores.zip sustainability_scores).map
        (fun p => linear_weighting p.1 p.2 weight),
        by simp [apply_weighting, weighting_functions]⟩
    · exact ⟨(base_scores.zip sustainability_scores).map
        (fun p => quadratic_weighting p.1 p.2 weight),
        by simp [apply_weighting, weighting_functions]⟩
    · exact ⟨(base_scores.zip sustainability_scores).map
        (fun p => sigmoid_weighting exp p.1 p.2 weight),
        by simp [apply_weighting, weighting_functions]⟩
    · exact ⟨(base_scores.zip sustainability_scores).map
        (fun p => threshold_weighting p.1 p.2 weight (7/10)),
        by simp [apply_weighting, weighting_functions]⟩

/-- C5 witness: the amended theorem applied to the unknown scheme `"cubic"` and, for
the same concrete score lists, the known scheme branch at `"linear"`. -/
theorem C5_witness :
    ("cubic" ∉ (["linear", "quadratic", "sigmoid", "threshold"] : List String) →
      apply_weighting (fun x => x) [1] [1/2] "cubic" (1/2) = .error .valueError) ∧
    ("cubic" ∈ (["linear", "quadratic", "sigmoid", "threshold"] : List String) →
      ∃ l, apply_weighting (fun x => x) [1] [1/2] "cubic" (1/2) = .ok l) :=
  C5_amended_unknown_scheme_only (fun x => x) [1] [1/2] "cubic" (1/2)

/-! ### C6: failure mode for unknown users -/

/-- C6 counterexample: on a concrete store with users `{10, 11}`, asking the
popularity recommender about the absent user `99` fails with the generic `IndexError`
from `np.where(...)[0][0]`, not with the typed `UnknownUserError` the claim names. -/
theorem C6_counterexample :
    popularity_recommend
        { interaction_matrix := [[1, 0], [0, 1]], user_ids := [10, 11],
          dest_ids := [1, 2],
          destinations := [⟨1, "a", "", 5, ""⟩, ⟨2, "b", "", 6, ""⟩] }
        99 5 true = .error .indexError ∧
    (Except.error PyErr.indexError : Except PyErr (List Rec)) ≠
      .error .unknownUserError := by
  constructor
  · simp [popularity_recommend, get_user_index, List.findIdx?]
  · simp

/-- C6 amended: for every store and every user id absent from the user index array,
`_get_user_index` — and with it `PopularityRecommender.recommend` — fails with the
untyped `IndexError` (and hence produces no recommendation list), rather than with a
typed `UnknownUserError`. -/
theorem C6_amended_unknown_user_index_error (s : Store) (user_id : ℤ) (n : Nat)
    (exclude_visited : Bool) (habs : user_id ∉ s.user_ids) :
    get_user_index s user_id = .error .indexError ∧
    popularity_recommend s user_id n exclude_visited = .error .indexError := by
  have hnone : s.user_ids.findIdx? (fun u => u == user_id) = none := by
    rw [List.findIdx?_eq_none_iff]
    intro x hx
    simp only [beq_eq_false_iff_ne, ne_eq]
    intro hxe
    exact habs (hxe ▸ hx)
  constructor
  · simp [get_user_index, hnone]
  · simp [popularity_recommend, get_user_index, hnone]

/-- C6 witness: the amended theorem applied to the concrete store with users
`{10, 11}` and the absent user id `99`. -/
theorem C6_witness :
    (99 : ℤ) ∉ ([10, 11] : List ℤ) ∧
    (get_user_index
        { interaction_matrix := [[1, 0], [0, 1]], user_ids := [10, 11],
          dest_ids := [1, 2], destinations := [] } 99 = .error .indexError ∧
      popularity_recommend
        { interaction_matrix := [[1, 0], [0, 1]], user_ids := [10, 11],
          dest_ids := [1, 2], destinations := [] } 99 3 true = .error .indexError) :=
  ⟨by decide, C6_amended_unknown_user_index_error _ 99 3 true (by decide)⟩

/-! ### C9 and C10: ensemble weight bookkeeping -/

/-- Sum of an elementwise division. -/
theorem sum_map_div (l : List ℚ) (t : ℚ) : (l.map (fun w => w / t)).sum = l.sum / t := by
  induction l with
  | nil => simp
  | cons a l ih => simp [ih, add_div]

/-- One `add_recommender` step preserves "all weights positive and summing to 1"
(starting from the empty list as well). -/
theorem add_recommender_invariant {ws : List ℚ}
    (hws : ws = [] ∨ ((∀ x ∈ ws, 0 < x) ∧ ws.sum = 1)) {w : ℚ} (hw : 0 < w) :
    (∀ x ∈ add_recommender ws w, 0 < x) ∧ (add_recommender ws w).sum = 1 := by
  rcases hws with h | ⟨hpos, hsum⟩
  · subst h
    simp [add_recommender, div_self (ne_of_gt hw), hw]
  · have htot : (ws ++ [w]).sum = 1 + w := by simp [hsum]
    have htpos : 0 < (ws ++ [w]).sum := by rw [htot]; linarith
    constructor
    · intro x hx
      simp only [add_recommender, List.mem_map] at hx
      obtain ⟨y, hy, rfl⟩ := hx
      have hypos : 0 < y := by
        rcases List.mem_append.mp hy with h | h
        · exact hpos y h
        · simp only [List.mem_singleton] at h
          exact h ▸ hw
      exact div_pos hypos htpos
    · simp only [add_recommender]
      rw [sum_map_div, htot, div_self (by linarith)]

/-- Every stored weight stays positive and the stored weights sum to exactly 1 after
folding any sequence of positive raw weights into a state satisfying the invariant. -/
theorem add_recommender_foldl_invariant :
    ∀ (raw ws : List ℚ), ((∀ x ∈ ws, 0 < x) ∧ ws.sum = 1) → (∀ w ∈ raw, 0 < w) →
      (∀ x ∈ raw.foldl add_recommender ws, 0 < x) ∧
        (raw.foldl add_recommender ws).sum = 1
  | [], ws, hws, _ => by simpa using hws
  | a :: raw, ws, hws, hraw => by
    rw [List.foldl_cons]
    exact add_recommender_foldl_invariant raw (add_recommender ws a)
      (add_recommender_invariant (Or.inr hws) (hraw a (List.mem_cons_self a raw)))
      (fun w hw => hraw w (List.mem_cons_of_mem a hw))

/-- C9: after any non-empty sequence of `add_recommender` calls with positive raw
weights, starting from an empty `HybridRecommender`, the stored weight list sums to 1
(exactly, in the exact-rational model of the floating-point arithmetic). -/
theorem C9_weights_sum_to_one (raw : List ℚ) (hne : raw ≠ [])
    (hpos : ∀ w ∈ raw, 0 < w) : (raw.foldl add_recommender []).sum = 1 := by
  cases raw with
  | nil => exact absurd rfl hne
  | cons a rest =>
    rw [List.foldl_cons]
    have ha : 0 < a := hpos a (List.mem_cons_self a rest)
    have hfirst : (∀ x ∈ add_recommender [] a, 0 < x) ∧ (add_recommender [] a).sum = 1 :=
      add_recommender_invariant (Or.inl rfl) ha
    exact (add_recommender_foldl_invariant rest (add_recommender [] a) hfirst
      (fun w hw => hpos w (List.mem_cons_of_mem a hw))).2

/-- C9 witness: the theorem applied to the default construction's raw weight sequence
`[0.1, 0.3, 0.3, 0.3]` (`create_default_hybrid_recommender`). -/
theorem C9_witness :
    ([1/10, 3/10, 3/10, 3/10] : List ℚ) ≠ [] ∧
    (∀ w ∈ ([1/10, 3/10, 3/10, 3/10] : List ℚ), 0 < w) ∧
    (([1/10, 3/10, 3/10, 3/10] : List ℚ).foldl add_recommender []).sum = 1 :=
  ⟨List.cons_ne_nil _ _, by norm_num,
    C9_weights_sum_to_one [1/10, 3/10, 3/10, 3/10] (List.cons_ne_nil _ _) (by norm_num)⟩

/-- C10: because `add_recommender` renormalizes after every call, adding raw weights
`a` then `b` to an empty ensemble stores `[1/(1+b), b/(1+b)]` whatever `a` was — the
first call's raw weight never influences any final weight (in particular the result is
not the globally normalized `[a/(a+b), b/(a+b)]` unless `a = 1`). -/
theorem C10_first_weight_forgotten (a b : ℚ) (ha : 0 < a) (_hb : 0 < b) :
    add_recommender (add_recommender [] a) b = [1 / (1 + b), b / (1 + b)] := by
  have h1 : add_recommender [] a = [1] := by
    simp [add_recommender, div_self (ne_of_gt ha)]
  rw [h1]
  simp [add_recommender]

/-- C10 witness: raw weights 9 then 1 yield stored weights `[1/2, 1/2]`, not the
globally normalized `[0.9, 0.1]`. -/
theorem C10_witness :
    (0 : ℚ) < 9 ∧ (0 : ℚ) < 1 ∧
    add_recommender (add_recommender [] 9) 1 = [1 / (1 + 1), 1 / (1 + 1)] :=
  ⟨by norm_num, by norm_num, C10_first_weight_forgotten 9 1 (by norm_num) (by norm_num)⟩

/-! ### C1: the counterfactual engine does not restore on error -/

/-- C1 counterexample: when the perturbed re-run of the pipeline raises, the override
is *not* reverted — after `generate_sustainability_counterfactual` the recommender's
weight is the target weight (0.7), not the original 0.3, and after
`generate_feature_counterfactual` the recommender's destinations table is the modified
copy, not the original.  There is no `try`/`finally` around the perturbed run
(counterfactual.py lines 63-71 and 174-182 are straight-line code). -/
theorem C1_counterexample :
    (generate_sustainability_counterfactual run_fails_when_weight_perturbed
        ⟨3/10, ()⟩ 1 (7/10) [⟨1, "a", "", 5, ""⟩]).1.sustainability_weight ≠ 3/10 ∧
    (generate_feature_counterfactual run_fails_when_table_perturbed
        ⟨3/10, one_row_table⟩ 1 "carbon_footprint_score" 9
        one_row_table).1.destinations ≠ one_row_table := by
  constructor
  · norm_num [generate_sustainability_counterfactual, run_fails_when_weight_perturbed,
      find_rank, plainRec, List.findIdx?]
  · norm_num [generate_feature_counterfactual, run_fails_when_table_perturbed,
      one_row_table, set_feature, find_rank, plainRec, List.findIdx?, List.find?_cons,
      beq_iff_eq]

/-- C1 amended: the Counterfactual Engine restores the perturbed factor only when the
perturbed re-run returns normally; on every call, either the factor
(`sustainability_weight`, respectively the destinations table) ends up equal to its
value before the call, or the perturbed re-run raised and the factor is left at the
perturbed value. -/
theorem C1_restore_only_on_success :
    (∀ (α : Type) (run : RecState α → Except PyErr (List Rec)) (s0 : RecState α)
      (dest_id : ℤ) (target_weight : ℚ) (expl : List DestRow),
      (generate_sustainability_counterfactual run s0 dest_id target_weight
          expl).1.sustainability_weight = s0.sustainability_weight ∨
        (∃ e, run { s0 with sustainability_weight := target_weight } = .error e ∧
          (generate_sustainability_counterfactual run s0 dest_id target_weight
            expl).1.sustainability_weight = target_weight)) ∧
    (∀ (run : RecState DestTable → Except PyErr (List Rec)) (s0 : RecState DestTable)
      (dest_id : ℤ) (feature : String) (target_value : ℚ) (expl : DestTable),
      (generate_feature_counterfactual run s0 dest_id feature target_value
          expl).1.destinations = s0.destinations ∨
        (∃ e, run { s0 with destinations :=
            { expl with rows := set_feature expl.rows dest_id feature target_value } } =
              .error e ∧
          (generate_feature_counterfactual run s0 dest_id feature target_value
            expl).1.destinations =
            { expl with rows := set_feature expl.rows dest_id feature target_value })) := by
  constructor
  · intro α run s0 dest_id target_weight expl
    simp only [generate_sustainability_counterfactual]
    cases h0 : run s0 with
    | error e => exact Or.inl rfl
    | ok cur =>
      dsimp only
      cases h1 : find_rank dest_id cur with
      | none => exact Or.inl rfl
      | some cr =>
        dsimp only
        cases h2 : run { s0 with sustainability_weight := target_weight } with
        | error e => exact Or.inr ⟨e, rfl, rfl⟩
        | ok cf =>
          dsimp only
          left
          cases h3 : expl.find? (fun r => r.destination_id == dest_id) with
          | none => rfl
          | some row =>
            dsimp only
            cases h4 : find_rank dest_id cf with
            | none => rfl
            | some nr =>
              dsimp only
              cases h5 : compute_moved cur cf cr nr with
              | error e => rfl
              | ok mv => rfl
  · intro run s0 dest_id feature target_value expl
    simp only [generate_feature_counterfactual]
    by_cases hc : feature ∈ expl.cols
    · rw [if_pos hc]
      cases h0 : run s0 with
      | error e => exact Or.inl rfl
      | ok cur =>
        dsimp only
        cases h1 : find_rank dest_id cur with
        | none => exact Or.inl rfl
        | some cr =>
          dsimp only
          cases h3 : expl.rows.find? (fun p => p.1 == dest_id) with
          | none => exact Or.inl rfl
          | some row =>
            dsimp only
            cases h2 : run { s0 with destinations :=
                { expl with rows := set_feature expl.rows dest_id feature target_value } } with
            | error e => exact Or.inr ⟨e, rfl, rfl⟩
            | ok cf =>
              dsimp only
              left
              cases h4 : find_rank dest_id cf with
              | none => rfl
              | some nr => rfl
    · rw [if_neg hc]
      exact Or.inl rfl

/-! ### C7: normalization of the user-based collaborative-filtering scores -/

/-- Rebuilding a list from its `getD` values. -/
theorem getD_range_map : ∀ (l : List ℚ),
    (List.range l.length).map (fun d => l.getD d 0) = l
  | [] => rfl
  | a :: l => by
    rw [List.length_cons, List.range_succ_eq_map, List.map_cons]
    have hhead : (a :: l).getD 0 0 = a := List.getD_cons_zero
    rw [hhead, List.map_map]
    have htail : ((fun d => (a :: l).getD d 0) ∘ Nat.succ) = fun d => l.getD d 0 := by
      funext d
      simp [List.getD_cons_succ]
    rw [htail, getD_range_map l]

/-- The accumulation loop of the user-based CF branch (base_models.py lines 196-204),
characterized pointwise: starting from any accumulator of the right width, it adds, at
every destination index, the similarity-weighted interaction entries of the users with
positive similarity. -/
theorem cf_fold_characterization (us : List ℚ) (matrix : List (List ℚ)) (numD : ℕ)
    (hrect : ∀ row ∈ matrix, row.length = numD) :
    ∀ (vs : List ℕ) (acc : List ℚ), acc.length = numD → (∀ v ∈ vs, v < matrix.length) →
      vs.foldl (fun acc v =>
        if us.getD v 0 ≤ 0 then acc
        else vec_add acc (scalar_mul (us.getD v 0) (matrix.getD v []))) acc =
      (List.range numD).map (fun d => acc.getD d 0 +
        ((vs.filter (fun v => decide (0 < us.getD v 0))).map
          (fun v => us.getD v 0 * (matrix.getD v []).getD d 0)).sum)
  | [], acc, hacc, _ => by
    simp only [List.foldl_nil, List.filter_nil, List.map_nil, List.sum_nil, add_zero]
    rw [← hacc]
    exact (getD_range_map acc).symm
  | v :: vs, acc, hacc, hmem => by
    by_cases hv : us.getD v 0 ≤ 0
    · rw [List.foldl_cons, if_pos hv,
        show List.filter (fun w => decide (0 < us.getD w 0)) (v :: vs) =
            List.filter (fun w => decide (0 < us.getD w 0)) vs from
          List.filter_cons_of_neg
            (by simp only [decide_eq_true_eq]; exact not_lt.mpr hv),
        cf_fold_characterization us matrix numD hrect vs acc hacc
          (fun w hw => hmem w (List.mem_cons_of_mem v hw))]
    · have hc : 0 < us.getD v 0 := not_le.mp hv
      have hvlt : v < matrix.length := hmem v (List.mem_cons_self v vs)
      have hrow : (matrix.getD v []).length = numD := by
        rw [List.getD_eq_getElem matrix [] hvlt]
        exact hrect _ (List.getElem_mem hvlt)
      have hacc' : (vec_add acc
          (scalar_mul (us.getD v 0) (matrix.getD v []))).length = numD := by
        simp only [vec_add, scalar_mul]
        rw [List.length_zipWith, List.length_map, hacc, hrow, min_self]
      rw [List.foldl_cons, if_neg hv,
        cf_fold_characterization us matrix numD hrect vs _ hacc'
          (fun w hw => hmem w (List.mem_cons_of_mem v hw)),
        show List.filter (fun w => decide (0 < us.getD w 0)) (v :: vs) =
            v :: List.filter (fun w => decide (0 < us.getD w 0)) vs from
          List.filter_cons_of_pos (decide_eq_true hc)]
      refine List.map_congr_left ?_
      intro d hd
      have hdlt : d < numD := List.mem_range.mp hd
      have h1 : (vec_add acc (scalar_mul (us.getD v 0) (matrix.getD v []))).getD d 0 =
          acc.getD d 0 + us.getD v 0 * (matrix.getD v []).getD d 0 := by
        have hd1 : d < (vec_add acc
            (scalar_mul (us.getD v 0) (matrix.getD v []))).length := by
          rw [hacc']; exact hdlt
        rw [List.getD_eq_getElem _ _ hd1]
        simp only [vec_add, List.getElem_zipWith, scalar_mul, List.getElem_map]
        rw [List.getD_eq_getElem acc 0 (by rw [hacc]; exact hdlt),
          List.getD_eq_getElem (matrix.getD v []) 0 (by rw [hrow]; exact hdlt)]
      rw [h1]
      simp only [List.map_cons, List.sum_cons]
      ring

/-- C7 counterexample: with two users of identical interaction rows `[1,1,1,1]` (so
their true cosine similarity matrix is `[[1,1],[1,1]]`), the code's user-based CF
score vector for user 0 is `[1/4, 1/4, 1/4, 1/4]` — it divides by
`np.sum(scores) = 4`, the sum of the weighted-row accumulation — whereas the spec's
"normalize by the sum of the similarities used" (sum = 1) yields `[1, 1, 1, 1]`. -/
theorem C7_counterexample :
    user_cf_scores [[1, 1], [1, 1]] [[1, 1, 1, 1], [1, 1, 1, 1]] 0 ≠
      spec_user_cf_scores [[1, 1], [1, 1]] [[1, 1, 1, 1], [1, 1, 1, 1]] 0 := by
  norm_num [user_cf_scores, spec_user_cf_scores, argsort_desc, pySortDesc,
    List.insertionSort, List.orderedInsert, vec_add, scalar_mul, List.range_succ,
    List.replicate, List.getD, List.filter_cons]

/-- C7 amended: the user-based collaborative-filtering score vector is the sum, over
the top-20 most similar users with positive similarity (self excluded by zeroing its
similarity), of their similarity-weighted interaction rows, normalized by dividing by
the *sum of the entries of that weighted-sum vector* (only when that sum is
positive) — not by the sum of the similarities used. -/
theorem C7_amended_normalization (sim matrix : List (List ℚ)) (uidx : ℕ)
    (hrect : ∀ row ∈ matrix, row.length = (matrix.headD []).length)
    (hsize : ((sim.getD uidx []).set uidx 0).length ≤ matrix.length) :
    user_cf_scores sim matrix uidx = amended_user_cf_scores sim matrix uidx := by
  simp only [user_cf_scores, amended_user_cf_scores]
  have hmem : ∀ v ∈ (argsort_desc ((sim.getD uidx []).set uidx 0)).take 20,
      v < matrix.length := by
    intro v hv
    have h1 : v ∈ argsort_desc ((sim.getD uidx []).set uidx 0) :=
      List.mem_of_mem_take hv
    have h2 : v ∈ List.range ((sim.getD uidx []).set uidx 0).length :=
      (pySortDesc_perm _ _).mem_iff.mp h1
    exact lt_of_lt_of_le (List.mem_range.mp h2) hsize
  rw [cf_fold_characterization ((sim.getD uidx []).set uidx 0) matrix
    (matrix.headD []).length hrect
    ((argsort_desc ((sim.getD uidx []).set uidx 0)).take 20)
    (List.replicate (matrix.headD []).length 0) (by simp) hmem]
  have hzs : (List.range (matrix.headD []).length).map (fun d =>
      (List.replicate (matrix.headD []).length (0 : ℚ)).getD d 0 +
        ((((argsort_desc ((sim.getD uidx []).set uidx 0)).take 20).filter
          (fun v => decide (0 < ((sim.getD uidx []).set uidx 0).getD v 0))).map
          (fun v => ((sim.getD uidx []).set uidx 0).getD v 0 *
            (matrix.getD v []).getD d 0)).sum) =
      (List.range (matrix.headD []).length).map (fun d =>
        ((((argsort_desc ((sim.getD uidx []).set uidx 0)).take 20).filter
          (fun v => decide (0 < ((sim.getD uidx []).set uidx 0).getD v 0))).map
          (fun v => ((sim.getD uidx []).set uidx 0).getD v 0 *
            (matrix.getD v []).getD d 0)).sum) := by
    refine List.map_congr_left ?_
    intro d hd
    have hdlt : d < (List.replicate (matrix.headD []).length (0 : ℚ)).length := by
      rw [List.length_replicate]
      exact List.mem_range.mp hd
    rw [List.getD_eq_getElem _ _ hdlt, List.getElem_replicate, zero_add]
  rw [hzs]

/-- C7 witness: the amended theorem applied to the concrete two-user instance with
identical interaction rows. -/
theorem C7_witness :
    (∀ row ∈ ([[1, 1, 1, 1], [1, 1, 1, 1]] : List (List ℚ)),
      row.length = (([[1, 1, 1, 1], [1, 1, 1, 1]] : List (List ℚ)).headD []).length) ∧
    (((([[1, 1], [1, 1]] : List (List ℚ)).getD 0 []).set 0 0).length ≤
      ([[1, 1, 1, 1], [1, 1, 1, 1]] : List (List ℚ)).length) ∧
    user_cf_scores [[1, 1], [1, 1]] [[1, 1, 1, 1], [1, 1, 1, 1]] 0 =
      amended_user_cf_scores [[1, 1], [1, 1]] [[1, 1, 1, 1], [1, 1, 1, 1]] 0 :=
  ⟨by decide, by decide,
    C7_amended_normalization [[1, 1], [1, 1]] [[1, 1, 1, 1], [1, 1, 1, 1]] 0
      (by decide) (by decide)⟩

/-! ### C3: bounded, duplicate-free, visited-free recommendation lists -/

/-- What a successful `_format_recommendations` returns: one entry per index, whose
destination id is the id-array entry at that index. -/
theorem format_recommendations_spec (s : Store) :
    ∀ (idxs : List ℕ) (l : List Rec), format_recommendations s idxs = .ok l →
      l.length = idxs.length ∧
      l.map (fun r => r.destination_id) = idxs.map (fun i => s.dest_ids.getD i 0) ∧
      ∀ r ∈ l, ∃ i ∈ idxs, r.destination_id = s.dest_ids.getD i 0
  | [], l, h => by
    simp only [format_recommendations] at h
    injection h with h
    subst h
    simp
  | idx :: rest, l, h => by
    simp only [format_recommendations] at h
    cases hfind : s.destinations.find?
        (fun r => r.destination_id == s.dest_ids.getD idx 0) with
    | none => rw [hfind] at h; cases h
    | some row =>
      rw [hfind] at h
      cases hrec : format_recommendations s rest with
      | error e => rw [hrec] at h; cases h
      | ok recs =>
        rw [hrec] at h
        injection h with h
        subst h
        obtain ⟨h1, h2, h3⟩ := format_recommendations_spec s rest recs hrec
        refine ⟨by simp [h1], by simp [h2], ?_⟩
        intro r hr
        rcases List.mem_cons.mp hr with rfl | hr₂
        · exact ⟨idx, List.mem_cons_self _ _, rfl⟩
        · obtain ⟨i, hi, he⟩ := h3 r hr₂
          exact ⟨i, List.mem_cons_of_mem _ hi, he⟩

/-- In a duplicate-free id array, the first index whose entry equals the `i`-th entry
is `i` itself (so `_get_destination_index` inverts `_get_destination_id`). -/
theorem findIdx_of_nodup : ∀ (l : List ℤ), l.Nodup → ∀ (i : ℕ) (hi : i < l.length),
    l.findIdx? (fun x => x == l.get ⟨i, hi⟩) = some i
  | [], _, i, hi => absurd hi (by simp)
  | a :: t, hnd, 0, hi => by
    rw [List.findIdx?_cons]
    simp
  | a :: t, hnd, (i+1), hi => by
    have hit : i < t.length := by simpa using hi
    have hmem : t.get ⟨i, hit⟩ ∈ t := List.get_mem t i hit
    have hane : a ≠ t.get ⟨i, hit⟩ := by
      intro he
      exact (List.nodup_cons.mp hnd).1 (he ▸ hmem)
    rw [List.findIdx?_cons]
    have hcond : (a == (a :: t).get ⟨i + 1, hi⟩) = false := by
      simp only [List.get_cons_succ]
      exact beq_eq_false_iff_ne.mpr hane
    rw [hcond]
    simp only [Bool.false_eq_true, if_false, List.findIdx?_succ]
    have hpred : (fun x => x == (a :: t).get ⟨i + 1, hi⟩) =
        (fun x => x == t.get ⟨i, hit⟩) := by
      simp only [List.get_cons_succ]
    rw [hpred, findIdx_of_nodup t (List.nodup_cons.mp hnd).2 i hit]
    rfl

/-- The column-sum vector has one entry per column of the first row. -/
theorem col_sums_length (m : List (List ℚ)) :
    (col_sums m).length = (m.headD []).length := by
  simp [col_sums]

/-- The sustainability rerank permutes its input (it sorts decorated copies and strips
the decoration). -/
theorem apply_sustainability_weighting_perm (dests : List (ℤ × ℚ)) (recs : List Rec)
    (w : ℚ) : (apply_sustainability_weighting dests recs w).Perm recs := by
  simp only [apply_sustainability_weighting]
  refine (List.Perm.map _ (pySortDesc_perm _ _)).trans ?_
  rw [List.map_map]
  have hcomp : ((fun q : Rec × ℚ => q.1) ∘ (fun p : ℕ × Rec =>
      (p.2, (1 - w) * (if recs.length > 1
          then ((recs.length : ℚ) - (p.1 : ℚ)) / (recs.length : ℚ) else 1)
        + w * (get_sustainability_score dests p.2.destination_id / 10)))) =
      fun p : ℕ × Rec => p.2 := rfl
  rw [hcomp, List.map_snd_zip _ _ (by simp)]

/-- One dictionary-update step of the ensemble's accumulation loop preserves:
distinct keys, each entry's recommendation carrying its key as destination id, and any
property `P` of the stored recommendations. -/
theorem add_candidate_inv (P : Rec → Prop) (acc : List (ℤ × CandidateEntry))
    (hnd : (acc.map (fun p => p.1)).Nodup)
    (hall : ∀ p ∈ acc, p.2.recommendation.destination_id = p.1 ∧ P p.2.recommendation)
    (d : ℤ) (sc : ℚ) (src : String) (r : Rec)
    (hd : r.destination_id = d) (hP : P r) :
    ((add_candidate acc d sc src r).map (fun p => p.1)).Nodup ∧
      ∀ p ∈ add_candidate acc d sc src r,
        p.2.recommendation.destination_id = p.1 ∧ P p.2.recommendation := by
  by_cases hany : acc.any (fun p => p.1 == d) = true
  · simp only [add_candidate, if_pos hany]
    constructor
    · rw [List.map_map]
      have hfst : ((fun p : ℤ × CandidateEntry => p.1) ∘ (fun p : ℤ × CandidateEntry =>
          if p.1 == d then
            (p.1, { p.2 with score := p.2.score + sc, sources := p.2.sources ++ [src] })
          else p)) = fun p : ℤ × CandidateEntry => p.1 := by
        funext p
        by_cases h : p.1 == d
        · simp [Function.comp, h]
        · simp [Function.comp, h]
      rw [hfst]
      exact hnd
    · intro p hp
      obtain ⟨q, hq, rfl⟩ := List.mem_map.mp hp
      by_cases h : q.1 == d
      · simp only [h, if_true]
        exact hall q hq
      · simp only [h, Bool.false_eq_true, if_false]
        exact hall q hq
  · simp only [add_candidate, if_neg hany]
    have hdne : ∀ p ∈ acc, p.1 ≠ d := by
      intro p hp he
      apply hany
      rw [List.any_eq_true]
      exact ⟨p, hp, by simp [he]⟩
    constructor
    · rw [List.map_append]
      refine List.Nodup.append hnd (by simp) ?_
      intro a ha hb
      simp only [List.map_cons, List.map_nil, List.mem_singleton] at hb
      obtain ⟨p, hp, rfl⟩ := List.mem_map.mp ha
      exact hdne p hp hb
    · intro p hp
      rcases List.mem_append.mp hp with h | h
      · exact hall p h
      · simp only [List.mem_singleton] at h
        subst h
        exact ⟨hd, hP⟩

/-- The full accumulation loop preserves the invariant of `add_candidate_inv` for any
contribution stream whose entries carry their recommendation's destination id. -/
theorem stream_fold_inv (P : Rec → Prop) :
    ∀ (stream : List Contribution) (acc : List (ℤ × CandidateEntry)),
      ((acc.map (fun p => p.1)).Nodup ∧
        ∀ p ∈ acc, p.2.recommendation.destination_id = p.1 ∧ P p.2.recommendation) →
      (∀ c ∈ stream, c.recommendation.destination_id = c.dest_id ∧ P c.recommendation) →
      ((stream_fold acc stream).map (fun p => p.1)).Nodup ∧
        ∀ p ∈ stream_fold acc stream,
          p.2.recommendation.destination_id = p.1 ∧ P p.2.recommendation
  | [], acc, hacc, _ => hacc
  | c :: cs, acc, hacc, hstream => by
    have hc := hstream c (List.mem_cons_self c cs)
    have hstep := add_candidate_inv P acc hacc.1 hacc.2 c.dest_id c.score
      c.source c.recommendation hc.1 hc.2
    have : stream_fold acc (c :: cs) =
        stream_fold (add_candidate acc c.dest_id c.score c.source c.recommendation) cs := by
      simp [stream_fold]
    rw [this]
    exact stream_fold_inv P cs _ hstep
      (fun x hx => hstream x (List.mem_cons_of_mem c hx))

/-- Every contribution of the code's stream carries its recommendation's destination
id and a recommendation drawn from one of the sub-recommenders' lists. -/
theorem code_contributions_mem (subs : List (String × ℚ × List Rec)) :
    ∀ c ∈ code_contributions subs,
      c.recommendation.destination_id = c.dest_id ∧
        ∃ sub ∈ subs, c.recommendation ∈ sub.2.2 := by
  intro c hc
  simp only [code_contributions, List.mem_flatMap, List.mem_map] at hc
  obtain ⟨sub, hsub, p, hp, rfl⟩ := hc
  exact ⟨rfl, sub, hsub, (List.of_mem_zip hp).2⟩

/-- C3: for every known user, `recommend(u, n, excludeVisited=true)` returns at most
`n` candidates with pairwise-distinct destination ids, none with a positive
interaction-matrix entry for the user.  Part one is `PopularityRecommender.recommend`
(given the data-model invariants: duplicate-free id array, matrix width matching it);
part two is the `HybridRecommender` combiner, where "not visited" is generalized to
any property `P` enjoyed by everything the sub-recommenders return, so instantiating
`P` with "no positive interaction entry" transfers the sub-recommenders' exclusion
guarantee to the ensemble's output. -/
theorem C3_recommend_bounded_distinct_unvisited :
    (∀ (s : Store) (user_id : ℤ) (n : ℕ) (uidx : ℕ) (l : List Rec),
      s.dest_ids.Nodup →
      (s.interaction_matrix.headD []).length = s.dest_ids.length →
      get_user_index s user_id = .ok uidx →
      popularity_recommend s user_id n true = .ok l →
      l.length ≤ n ∧ (l.map (fun r => r.destination_id)).Nodup ∧
        ∀ r ∈ l, ∃ i, get_destination_index s r.destination_id = .ok i ∧
          (s.interaction_matrix.getD uidx []).getD i 0 ≤ 0) ∧
    (∀ (P : Rec → Prop) (subs : List (String × ℚ × List Rec))
      (dests : List (ℤ × ℚ)) (sw : ℚ) (n : ℕ),
      (∀ sub ∈ subs, ∀ r ∈ sub.2.2, P r) →
      (hybrid_combine dests sw subs n).length ≤ n ∧
        ((hybrid_combine dests sw subs n).map (fun r => r.destination_id)).Nodup ∧
        ∀ r ∈ hybrid_combine dests sw subs n, P r) := by
  constructor
  · intro s user_id n uidx l hnd hlen huser hrun
    simp only [popularity_recommend, huser, if_true] at hrun
    obtain ⟨h1, h2, h3⟩ := format_recommendations_spec s _ l hrun
    have hJsub : (((argsort_desc (col_sums s.interaction_matrix)).filter
        (fun i => !decide (0 < (s.interaction_matrix.getD uidx []).getD i 0))).take n).Sublist
        (argsort_desc (col_sums s.interaction_matrix)) :=
      (List.take_sublist _ _).trans (List.filter_sublist _)
    have hargperm : (argsort_desc (col_sums s.interaction_matrix)).Perm
        (List.range (col_sums s.interaction_matrix).length) := pySortDesc_perm _ _
    have hargnodup : (argsort_desc (col_sums s.interaction_matrix)).Nodup :=
      hargperm.symm.nodup (List.nodup_range _)
    have hJnodup := hJsub.nodup hargnodup
    have hJlt : ∀ i ∈ ((argsort_desc (col_sums s.interaction_matrix)).filter
        (fun i => !decide (0 < (s.interaction_matrix.getD uidx []).getD i 0))).take n,
        i < s.dest_ids.length := by
      intro i hi
      have := List.mem_range.mp (hargperm.mem_iff.mp (hJsub.mem hi))
      rw [col_sums_length, hlen] at this
      exact this
    refine ⟨?_, ?_, ?_⟩
    · rw [h1]
      exact List.length_take_le _ _
    · rw [h2]
      refine List.Nodup.map_on ?_ hJnodup
      intro i hi j hj hij
      have hi' := hJlt i hi
      have hj' := hJlt j hj
      rw [List.getD_eq_getElem _ _ hi', List.getD_eq_getElem _ _ hj'] at hij
      exact (hnd.getElem_inj_iff).mp hij
    · intro r hr
      obtain ⟨i, hiJ, hie⟩ := h3 r hr
      have hi' := hJlt i hiJ
      have hmemf := (List.take_sublist _ _).mem hiJ
      have hfl := List.mem_filter.mp hmemf
      have hentry : (s.interaction_matrix.getD uidx []).getD i 0 ≤ 0 := by
        have := hfl.2
        simp only [Bool.not_eq_eq_eq_not, Bool.not_true, decide_eq_false_iff_not,
          not_lt] at this
        exact this
      refine ⟨i, ?_, hentry⟩
      simp only [get_destination_index]
      have : s.dest_ids.findIdx? (fun x => x == r.destination_id) = some i := by
        have hgd : r.destination_id = s.dest_ids.get ⟨i, hi'⟩ := by
          rw [hie, List.getD_eq_getElem _ _ hi']
          rfl
        rw [hgd]
        exact findIdx_of_nodup s.dest_ids hnd i hi'
      rw [this]
  · intro P subs dests sw n hP
    have hinv := stream_fold_inv P (code_contributions subs) [] (by simp)
      (fun c hc => by
        obtain ⟨h1, sub, hsub, hmem⟩ := code_contributions_mem subs c hc
        exact ⟨h1, hP sub hsub _ hmem⟩)
    have hvals_nodup : (((accumulate_candidates subs).map (fun p => p.2)).map
        (fun e => e.recommendation.destination_id)).Nodup := by
      rw [List.map_map]
      have hcomp : ((fun e : CandidateEntry => e.recommendation.destination_id) ∘
          (fun p : ℤ × CandidateEntry => p.2)) =
          fun p : ℤ × CandidateEntry => p.2.recommendation.destination_id := rfl
      rw [hcomp]
      have heq : (accumulate_candidates subs).map
          (fun p => p.2.recommendation.destination_id) =
          (accumulate_candidates subs).map (fun p => p.1) :=
        List.map_congr_left (fun p hp => (hinv.2 p hp).1)
      rw [heq]
      exact hinv.1
    have hvals_P : ∀ e ∈ (accumulate_candidates subs).map (fun p => p.2),
        P e.recommendation := by
      intro e he
      obtain ⟨p, hp, rfl⟩ := List.mem_map.mp he
      exact (hinv.2 p hp).2
    have hperm : (pySortDesc (fun e => e.score)
        ((accumulate_candidates subs).map (fun p => p.2))).Perm
        ((accumulate_candidates subs).map (fun p => p.2)) := pySortDesc_perm _ _
    have htop_len : (((pySortDesc (fun e => e.score)
        ((accumulate_candidates subs).map (fun p => p.2))).take n).map
        (fun e => e.recommendation)).length ≤ n := by
      rw [List.length_map]
      exact List.length_take_le _ _
    have htop_nodup : ((((pySortDesc (fun e => e.score)
        ((accumulate_candidates subs).map (fun p => p.2))).take n).map
        (fun e => e.recommendation)).map (fun r => r.destination_id)).Nodup := by
      rw [List.map_map]
      have hsl : (((pySortDesc (fun e => e.score)
          ((accumulate_candidates subs).map (fun p => p.2))).take n).map
          (fun e => e.recommendation.destination_id)).Sublist
          ((pySortDesc (fun e => e.score)
            ((accumulate_candidates subs).map (fun p => p.2))).map
            (fun e => e.recommendation.destination_id)) :=
        List.Sublist.map _ (List.take_sublist _ _)
      refine hsl.nodup ?_
      exact ((hperm.map (fun e => e.recommendation.destination_id)).symm).nodup
        hvals_nodup
    have htop_P : ∀ r ∈ ((pySortDesc (fun e => e.score)
        ((accumulate_candidates subs).map (fun p => p.2))).take n).map
        (fun e => e.recommendation), P r := by
      intro r hr
      obtain ⟨e, he, rfl⟩ := List.mem_map.mp hr
      exact hvals_P e (hperm.mem_iff.mp ((List.take_sublist _ _).mem he))
    simp only [hybrid_combine]
    by_cases hsw : 0 < sw
    · rw [if_pos hsw]
      have hrperm := apply_sustainability_weighting_perm dests
        (((pySortDesc (fun e => e.score)
          ((accumulate_candidates subs).map (fun p => p.2))).take n).map
          (fun e => e.recommendation)) sw
      refine ⟨?_, ?_, ?_⟩
      · rw [hrperm.length_eq]
        exact htop_len
      · exact ((hrperm.map (fun r => r.destination_id)).symm).nodup htop_nodup
      · intro r hr
        exact htop_P r (hrperm.mem_iff.mp hr)
    · rw [if_neg hsw]
      exact ⟨htop_len, htop_nodup, htop_P⟩

/-- C3 witness: both parts applied to concrete inputs — the popularity recommender on
a two-user, two-destination store (user 10 has visited destination 1), and the hybrid
combiner on one sub-recommender whose candidates all satisfy the sample property. -/
theorem C3_witness :
    (([1, 2] : List ℤ).Nodup ∧
      ((([[1, 0], [0, 1]] : List (List ℚ)).headD []).length = ([1, 2] : List ℤ).length) ∧
      get_user_index
        { interaction_matrix := [[1, 0], [0, 1]], user_ids := [10, 11],
          dest_ids := [1, 2],
          destinations := [⟨1, "a", "", 5, ""⟩, ⟨2, "b", "", 6, ""⟩] } 10 = .ok 0 ∧
      popularity_recommend
        { interaction_matrix := [[1, 0], [0, 1]], user_ids := [10, 11],
          dest_ids := [1, 2],
          destinations := [⟨1, "a", "", 5, ""⟩, ⟨2, "b", "", 6, ""⟩] } 10 1 true =
        .ok [⟨2, "b", "", some 6, ""⟩] ∧
      ([⟨2, "b", "", some 6, ""⟩] : List Rec).length ≤ 1 ∧
      (([⟨2, "b", "", some 6, ""⟩] : List Rec).map (fun r => r.destination_id)).Nodup ∧
      (∀ r ∈ ([⟨2, "b", "", some 6, ""⟩] : List Rec), ∃ i,
        get_destination_index
          { interaction_matrix := [[1, 0], [0, 1]], user_ids := [10, 11],
            dest_ids := [1, 2],
            destinations := [⟨1, "a", "", 5, ""⟩, ⟨2, "b", "", 6, ""⟩] }
          r.destination_id = .ok i ∧
        ((([[1, 0], [0, 1]] : List (List ℚ)).getD 0 []).getD i 0 ≤ 0))) ∧
    ((∀ sub ∈ ([("R", (1 : ℚ), [plainRec 7 4])] : List (String × ℚ × List Rec)),
        ∀ r ∈ sub.2.2, r.destination_id ≠ 9) →
      (hybrid_combine [(7, 4)] (3/10) [("R", 1, [plainRec 7 4])] 5).length ≤ 5 ∧
        ((hybrid_combine [(7, 4)] (3/10) [("R", 1, [plainRec 7 4])] 5).map
          (fun r => r.destination_id)).Nodup ∧
        ∀ r ∈ hybrid_combine [(7, 4)] (3/10) [("R", 1, [plainRec 7 4])] 5,
          r.destination_id ≠ 9) := by
  constructor
  · have hnd : ([1, 2] : List ℤ).Nodup := by decide
    have hlen : ((([[1, 0], [0, 1]] : List (List ℚ)).headD []).length =
        ([1, 2] : List ℤ).length) := by decide
    have huser : get_user_index
        { interaction_matrix := [[1, 0], [0, 1]], user_ids := [10, 11],
          dest_ids := [1, 2],
          destinations := [⟨1, "a", "", 5, ""⟩, ⟨2, "b", "", 6, ""⟩] } 10 = .ok 0 := by
      simp [get_user_index, List.findIdx?]
    have hrun : popularity_recommend
        { interaction_matrix := [[1, 0], [0, 1]], user_ids := [10, 11],
          dest_ids := [1, 2],
          destinations := [⟨1, "a", "", 5, ""⟩, ⟨2, "b", "", 6, ""⟩] } 10 1 true =
        .ok [⟨2, "b", "", some 6, ""⟩] := by
      norm_num [popularity_recommend, get_user_index, argsort_desc, pySortDesc,
        col_sums, format_recommendations, List.findIdx?, List.insertionSort,
        List.orderedInsert, List.range_succ, List.getD, List.filter_cons,
        List.find?_cons]
    exact ⟨hnd, hlen, huser, hrun,
      (C3_recommend_bounded_distinct_unvisited.1 _ 10 1 0 _ hnd hlen huser hrun).1,
      (C3_recommend_bounded_distinct_unvisited.1 _ 10 1 0 _ hnd hlen huser hrun).2.1,
      (C3_recommend_bounded_distinct_unvisited.1 _ 10 1 0 _ hnd hlen huser hrun).2.2⟩
  · intro hP
    exact C3_recommend_bounded_distinct_unvisited.2
      (fun r => r.destination_id ≠ 9) [("R", 1, [plainRec 7 4])] [(7, 4)] (3/10) 5 hP

/-! ### C4: the ensemble combiner versus its spec description -/

/-- Boolean equality test on integers is symmetric. -/
theorem beq_comm_int (a b : ℤ) : (a == b) = (b == a) := by
  rw [Bool.eq_iff_iff, beq_iff_eq, beq_iff_eq]
  exact eq_comm

/-- The code's positional score `w·(1 − j/L)` equals the spec's `w·(L−j)/L` at every
occupied position `j < L`, so the two contribution streams coincide. -/
theorem code_contributions_eq_spec (subs : List (String × ℚ × List Rec)) :
    code_contributions subs = spec_contributions subs := by
  induction subs with
  | nil => rfl
  | cons sub subs ih =>
    simp only [code_contributions, spec_contributions, List.flatMap_cons]
    simp only [code_contributions, spec_contributions] at ih
    rw [ih]
    congr 1
    refine List.map_congr_left ?_
    rintro ⟨j, r⟩ hp
    dsimp only
    have hj : j < sub.2.2.length := List.mem_range.mp (List.of_mem_zip hp).1
    have hL : ((sub.2.2.length : ℚ)) ≠ 0 := by
      have h0 : 0 < sub.2.2.length := Nat.lt_of_le_of_lt (Nat.zero_le j) hj
      exact_mod_cast Nat.pos_iff_ne_zero.mp h0
    have hscore : sub.2.1 * (1 - (j : ℚ) / (sub.2.2.length : ℚ)) =
        sub.2.1 * ((sub.2.2.length : ℚ) - (j : ℚ)) / (sub.2.2.length : ℚ) := by
      field_simp
    rw [hscore]

/-- `add_candidate` preserves distinctness of the dictionary keys. -/
theorem add_candidate_keys (acc : List (ℤ × CandidateEntry)) (d : ℤ) (sc : ℚ)
    (src : String) (r : Rec) (hnd : (acc.map (fun p => p.1)).Nodup) :
    ((add_candidate acc d sc src r).map (fun p => p.1)).Nodup := by
  by_cases hany : acc.any (fun p => p.1 == d) = true
  · simp only [add_candidate, if_pos hany]
    rw [List.map_map]
    have hfst : ((fun p : ℤ × CandidateEntry => p.1) ∘ (fun p : ℤ × CandidateEntry =>
        if p.1 == d then
          (p.1, { p.2 with score := p.2.score + sc, sources := p.2.sources ++ [src] })
        else p)) = fun p : ℤ × CandidateEntry => p.1 := by
      funext p
      by_cases h : p.1 == d
      · simp [Function.comp, h]
      · simp [Function.comp, h]
    rw [hfst]
    exact hnd
  · simp only [add_candidate, if_neg hany]
    rw [List.map_append]
    refine List.Nodup.append hnd (by simp) ?_
    intro a ha hb
    simp only [List.map_cons, List.map_nil, List.mem_singleton] at hb
    obtain ⟨p, hp, rfl⟩ := List.mem_map.mp ha
    apply hany
    rw [List.any_eq_true]
    exact ⟨p, hp, by simp [hb]⟩

/-- Members of `firstSeen l` are members of `l`. -/
theorem firstSeen_subset : ∀ (l : List ℤ) (x : ℤ), x ∈ firstSeen l → x ∈ l
  | [], x, h => by simp [firstSeen] at h
  | a :: l, x, h => by
    rw [firstSeen] at h
    rcases List.mem_cons.mp h with rfl | h2
    · exact List.mem_cons_self _ _
    · exact List.mem_cons_of_mem _
        (List.mem_of_mem_filter (firstSeen_subset (l.filter (fun y => y ≠ a)) x h2))
termination_by l => l.length
decreasing_by
  simp only [List.length_cons]
  exact Nat.lt_succ_of_le (List.length_filter_le _ _)

/-- `decide (x ≠ d)` is the negated flipped boolean equality test. -/
theorem decide_ne_comm (x d : ℤ) : (decide (x ≠ d)) = !(d == x) := by
  rw [decide_not]
  congr 1
  rw [Bool.eq_iff_iff, decide_eq_true_eq, beq_iff_eq]
  exact eq_comm

/-- Full characterization of the ensemble's dictionary accumulation: folding a
contribution stream into a dictionary with distinct keys updates every present key by
the total score and provenance of its contributions, and appends the stream's fresh
destinations in order of first appearance, each carrying its first recommendation,
total score and provenance list. -/
theorem stream_fold_characterization :
    ∀ (stream : List Contribution) (acc : List (ℤ × CandidateEntry)),
      (acc.map (fun p => p.1)).Nodup →
      stream_fold acc stream =
        acc.map (fun p => (p.1,
          { recommendation := p.2.recommendation,
            score := p.2.score +
              ((stream.filter (fun c => c.dest_id == p.1)).map (fun c => c.score)).sum,
            sources := p.2.sources ++
              (stream.filter (fun c => c.dest_id == p.1)).map (fun c => c.source) })) ++
        (firstSeen ((stream.filter
            (fun c => !(acc.any (fun q => q.1 == c.dest_id)))).map
            (fun c => c.dest_id))).map
          (fun d => (d, entry_of (stream.filter (fun c => c.dest_id == d))))
  | [], acc, _ => by
    simp only [stream_fold, List.foldl_nil, List.filter_nil, List.map_nil,
      List.sum_nil, add_zero, List.append_nil, firstSeen]
    have heta : (fun p : ℤ × CandidateEntry => (p.1,
        ({ recommendation := p.2.recommendation, score := p.2.score,
           sources := p.2.sources } : CandidateEntry))) =
        fun p : ℤ × CandidateEntry => p := by
      funext p
      rfl
    rw [heta]
    simp
  | c :: cs, acc, hnd => by
    have hfold : stream_fold acc (c :: cs) =
        stream_fold (add_candidate acc c.dest_id c.score c.source c.recommendation) cs := by
      simp [stream_fold]
    rw [hfold]
    by_cases hany : acc.any (fun q => q.1 == c.dest_id) = true
    · have hupd : add_candidate acc c.dest_id c.score c.source c.recommendation =
          acc.map (fun p => if p.1 == c.dest_id then
            (p.1, ⟨p.2.recommendation, p.2.score + c.score,
              p.2.sources ++ [c.source]⟩) else p) := by
        simp only [add_candidate, if_pos hany]
      have hnd' : ((acc.map (fun p => if p.1 == c.dest_id then
          (p.1, ⟨p.2.recommendation, p.2.score + c.score, p.2.sources ++ [c.source]⟩) else p)).map
          (fun p => p.1)).Nodup := by
        rw [List.map_map]
        have hfst : ((fun p : ℤ × CandidateEntry => p.1) ∘ (fun p : ℤ × CandidateEntry =>
            if p.1 == c.dest_id then
              (p.1, ⟨p.2.recommendation, p.2.score + c.score, p.2.sources ++ [c.source]⟩)
            else p)) = fun p : ℤ × CandidateEntry => p.1 := by
          funext p
          by_cases h : p.1 == c.dest_id
          · simp [Function.comp, h]
          · simp [Function.comp, h]
        rw [hfst]
        exact hnd
      rw [hupd, stream_fold_characterization cs _ hnd']
      congr 1
      · rw [List.map_map]
        refine List.map_congr_left ?_
        intro p _
        simp only [Function.comp]
        by_cases hpd : (p.1 == c.dest_id) = true
        · have hpd' : p.1 = c.dest_id := eq_of_beq hpd
          rw [if_pos hpd]
          rw [show (c :: cs).filter (fun c' => c'.dest_id == p.1) =
              c :: cs.filter (fun c' => c'.dest_id == p.1) from
            List.filter_cons_of_pos (by rw [hpd']; exact beq_self_eq_true _)]
          dsimp only
          rw [List.map_cons, List.sum_cons, List.map_cons, add_assoc,
            List.append_assoc, List.singleton_append]
        · rw [if_neg hpd]
          rw [show (c :: cs).filter (fun c' => c'.dest_id == p.1) =
              cs.filter (fun c' => c'.dest_id == p.1) from
            List.filter_cons_of_neg (by rw [beq_comm_int]; exact hpd)]
      · have hkeys : cs.filter (fun c' => !((acc.map (fun p =>
            if p.1 == c.dest_id then
              (p.1, ⟨p.2.recommendation, p.2.score + c.score, p.2.sources ++ [c.source]⟩)
            else p)).any (fun q => q.1 == c'.dest_id))) =
            cs.filter (fun c' => !(acc.any (fun q => q.1 == c'.dest_id))) := by
          refine List.filter_congr ?_
          intro x _
          rw [List.any_map]
          congr 2
          funext q
          by_cases h : q.1 == c.dest_id
          · simp [Function.comp, h]
          · simp [Function.comp, h]
        rw [hkeys]
        rw [show (c :: cs).filter (fun c' => !(acc.any (fun q => q.1 == c'.dest_id))) =
            cs.filter (fun c' => !(acc.any (fun q => q.1 == c'.dest_id))) from
          List.filter_cons_of_neg (by simp [hany])]
        refine List.map_congr_left ?_
        intro d hd
        have hd1 := firstSeen_subset _ _ hd
        obtain ⟨c', hc', rfl⟩ := List.mem_map.mp hd1
        have hpred := (List.mem_filter.mp hc').2
        have hne : c.dest_id ≠ c'.dest_id := by
          intro he
          rw [← he] at hpred
          rw [hany] at hpred
          simp at hpred
        rw [show (c :: cs).filter (fun x => x.dest_id == c'.dest_id) =
            cs.filter (fun x => x.dest_id == c'.dest_id) from
          List.filter_cons_of_neg (by simp [hne])]
    · have hanyf : acc.any (fun q => q.1 == c.dest_id) = false :=
        Bool.eq_false_iff.mpr hany
      have hnot : ∀ p ∈ acc, (p.1 == c.dest_id) = false := by
        intro p hp
        by_contra h
        have hx : (p.1 == c.dest_id) = true := by
          cases hb : (p.1 == c.dest_id)
          · exact absurd hb h
          · rfl
        exact hany (List.any_eq_true.mpr ⟨p, hp, hx⟩)
      have hupd : add_candidate acc c.dest_id c.score c.source c.recommendation =
          acc ++ [(c.dest_id, ⟨c.recommendation, c.score, [c.source]⟩)] := by
        simp only [add_candidate, if_neg hany]
      have hnd' : (((acc ++ [(c.dest_id, (⟨c.recommendation, c.score, [c.source]⟩ : CandidateEntry))]).map
          (fun p => p.1))).Nodup := by
        rw [List.map_append]
        refine List.Nodup.append hnd (by simp) ?_
        intro a ha hb
        simp only [List.map_cons, List.map_nil, List.mem_singleton] at hb
        obtain ⟨p, hp, rfl⟩ := List.mem_map.mp ha
        have := hnot p hp
        rw [hb] at this
        simp at this
      rw [hupd, stream_fold_characterization cs _ hnd', List.map_append]
      rw [show (c :: cs).filter (fun c' => !(acc.any (fun q => q.1 == c'.dest_id))) =
          c :: cs.filter (fun c' => !(acc.any (fun q => q.1 == c'.dest_id))) from
        List.filter_cons_of_pos (by simp [hanyf])]
      have hfs : firstSeen (c.dest_id :: (cs.filter
          (fun c' => !(acc.any (fun q => q.1 == c'.dest_id)))).map
          (fun c' => c'.dest_id)) =
          c.dest_id :: firstSeen (((cs.filter
            (fun c' => !(acc.any (fun q => q.1 == c'.dest_id)))).map
            (fun c' => c'.dest_id)).filter (fun x => x ≠ c.dest_id)) := by
        rw [firstSeen.eq_def]
      rw [show List.map (fun c' => c'.dest_id) (c :: cs.filter
          (fun c' => !(acc.any (fun q => q.1 == c'.dest_id)))) =
          c.dest_id :: (cs.filter
            (fun c' => !(acc.any (fun q => q.1 == c'.dest_id)))).map
            (fun c' => c'.dest_id) from rfl]
      rw [hfs]
      rw [show List.map (fun d => (d, entry_of ((c :: cs).filter
            (fun c' => c'.dest_id == d))))
          (c.dest_id :: firstSeen (((cs.filter
            (fun c' => !(acc.any (fun q => q.1 == c'.dest_id)))).map
            (fun c' => c'.dest_id)).filter (fun x => x ≠ c.dest_id))) =
          (c.dest_id, entry_of ((c :: cs).filter
            (fun c' => c'.dest_id == c.dest_id))) ::
          List.map (fun d => (d, entry_of ((c :: cs).filter
            (fun c' => c'.dest_id == d))))
            (firstSeen (((cs.filter
              (fun c' => !(acc.any (fun q => q.1 == c'.dest_id)))).map
              (fun c' => c'.dest_id)).filter (fun x => x ≠ c.dest_id)))
          from rfl]
      rw [List.append_assoc]
      congr 1
      · refine List.map_congr_left ?_
        intro p hp
        rw [show (c :: cs).filter (fun c' => c'.dest_id == p.1) =
            cs.filter (fun c' => c'.dest_id == p.1) from
          List.filter_cons_of_neg (by rw [beq_comm_int, hnot p hp]; simp)]
      · rw [List.map_cons, List.map_nil, List.singleton_append]
        congr 1
        · dsimp only
          rw [show (c :: cs).filter (fun c' => c'.dest_id == c.dest_id) =
              c :: cs.filter (fun c' => c'.dest_id == c.dest_id) from
            List.filter_cons_of_pos (beq_self_eq_true _)]
          simp only [entry_of, List.map_cons, List.headD_cons, List.sum_cons]
          rw [List.singleton_append]
        · have hs1 : cs.filter (fun c' => !((acc ++ [(c.dest_id,
              (⟨c.recommendation, c.score, [c.source]⟩ : CandidateEntry))]).any
              (fun q => q.1 == c'.dest_id))) =
              (cs.filter (fun c' => !(acc.any (fun q => q.1 == c'.dest_id)))).filter
                (fun c' => !(c.dest_id == c'.dest_id)) := by
            rw [List.filter_filter]
            refine List.filter_congr ?_
            intro x _
            rw [List.any_append]
            simp only [List.any_cons, List.any_nil, Bool.or_false, Bool.not_or]
            rw [Bool.and_comm]
          have hs2 : ((cs.filter (fun c' => !(acc.any
              (fun q => q.1 == c'.dest_id)))).filter
                (fun c' => !(c.dest_id == c'.dest_id))).map (fun c' => c'.dest_id) =
              ((cs.filter (fun c' => !(acc.any (fun q => q.1 == c'.dest_id)))).map
                (fun c' => c'.dest_id)).filter (fun x => !(c.dest_id == x)) := by
            rw [List.filter_map]
            rfl
          have hs3 : ((cs.filter (fun c' => !(acc.any
              (fun q => q.1 == c'.dest_id)))).map (fun c' => c'.dest_id)).filter
                (fun x => decide (x ≠ c.dest_id)) =
              ((cs.filter (fun c' => !(acc.any (fun q => q.1 == c'.dest_id)))).map
                (fun c' => c'.dest_id)).filter (fun x => !(c.dest_id == x)) := by
            refine List.filter_congr ?_
            intro x _
            exact decide_ne_comm x c.dest_id
          rw [hs1, hs2, ← hs3]
          refine List.map_congr_left ?_
          intro d hd
          have hd1 := firstSeen_subset _ _ hd
          have hdne : d ≠ c.dest_id := by
            have := (List.mem_filter.mp hd1).2
            simpa using this
          rw [show (c :: cs).filter (fun c' => c'.dest_id == d) =
              cs.filter (fun c' => c'.dest_id == d) from
            List.filter_cons_of_neg (by
              simp only [beq_iff_eq]
              exact fun h => hdne h.symm)]

/-- The accumulated dictionary equals the spec-shaped per-destination summary of the
(identical) contribution stream. -/
theorem accumulate_candidates_eq (subs : List (String × ℚ × List Rec)) :
    accumulate_candidates subs =
      (firstSeen ((spec_contributions subs).map (fun c => c.dest_id))).map
        (fun d => (d, entry_of ((spec_contributions subs).filter
          (fun c => c.dest_id == d)))) := by
  unfold accumulate_candidates
  rw [code_contributions_eq_spec]
  rw [stream_fold_characterization (spec_contributions subs) [] (by simp)]
  simp only [List.map_nil, List.nil_append, List.any_nil, Bool.not_false,
    List.filter_true]

/-- The pre-rerank core of `HybridRecommender.recommend` coincides with the
spec-worded pipeline: accumulate scores per destination, sort descending, truncate. -/
theorem hybrid_core_eq_spec (subs : List (String × ℚ × List Rec)) (n : ℕ) :
    ((pySortDesc (fun e => e.score)
      ((accumulate_candidates subs).map (fun p => p.2))).take n).map
      (fun e => e.recommendation) =
    ((pySortDesc (fun p => p.2.score)
      ((firstSeen ((spec_contributions subs).map (fun c => c.dest_id))).map
        (fun d => (d, entry_of ((spec_contributions subs).filter
          (fun c => c.dest_id == d)))))).take n).map
      (fun p => p.2.recommendation) := by
  rw [accumulate_candidates_eq,
    pySortDesc_map (fun p : ℤ × CandidateEntry => p.2) (fun e : CandidateEntry => e.score),
    ← List.map_take, List.map_map]
  rfl

/-- C4 counterexample: with one registered recommender (normalized weight 1) returning
three candidates of sustainability scores 0, 10, 0, and the default stored
sustainability weight 0.3, `HybridRecommender.recommend` returns order `[2,1,3]` —
the post-sort sustainability rerank moved destination 2 up — while the claim's
description (accumulated-score order, truncated) gives `[1,2,3]`. -/
theorem C4_counterexample :
    hybrid_recommend
        [("R", (1 : ℚ), fun _ => Except.ok [plainRec 1 0, plainRec 2 10, plainRec 3 0])]
        [(1, 0), (2, 10), (3, 0)] (3/10) 3 ≠
      spec_ensemble_recommend
        [("R", (1 : ℚ), fun _ => Except.ok [plainRec 1 0, plainRec 2 10, plainRec 3 0])]
        3 := by
  have h1 : get_sustainability_score [(1, 0), (2, 10), (3, 0)] 1 = 0 := by
    simp [get_sustainability_score, List.find?_cons, Int.reduceBEq]
  have h2 : get_sustainability_score [(1, 0), (2, 10), (3, 0)] 2 = 10 := by
    simp [get_sustainability_score, List.find?_cons, Int.reduceBEq]
  have h3 : get_sustainability_score [(1, 0), (2, 10), (3, 0)] 3 = 0 := by
    simp [get_sustainability_score, List.find?_cons, Int.reduceBEq]
  norm_num [hybrid_recommend, spec_ensemble_recommend, collect_subs, hybrid_combine,
    accumulate_candidates, stream_fold, code_contributions, spec_contributions,
    add_candidate, entry_of, firstSeen, pySortDesc, List.insertionSort,
    List.orderedInsert, apply_sustainability_weighting, h1, h2, h3,
    plainRec, List.range_succ, List.find?_cons, List.filter_cons, Int.reduceBEq]

/-- C4 amended: `HybridRecommender.recommend` asks every registered recommender for
`2n` candidates, scores position `j` of a length-`L` list as `w·(L−j)/L`, sums per
destination merging provenance, sorts descending by accumulated score and truncates to
`n` — and then, whenever the stored sustainability weight is positive (default 0.3),
reranks that top-`n` list with the sustainability scorer before returning it; the
spec-worded combiner output is returned unchanged only when the weight is ≤ 0. -/
theorem C4_amended_combiner_then_rerank
    (recommenders : List (String × ℚ × (Nat → Except PyErr (List Rec))))
    (dests : List (ℤ × ℚ)) (sw : ℚ) (n : ℕ) :
    hybrid_recommend recommenders dests sw n =
      if 0 < sw then
        (spec_ensemble_recommend recommenders n).map
          (fun l => apply_sustainability_weighting dests l sw)
      else spec_ensemble_recommend recommenders n := by
  simp only [hybrid_recommend, spec_ensemble_recommend]
  by_cases hemp : recommenders.isEmpty = true
  · simp only [hemp, if_true]
    by_cases hsw : 0 < sw
    · rw [if_pos hsw]
      rfl
    · rw [if_neg hsw]
  · have hemp' : recommenders.isEmpty = false := Bool.eq_false_iff.mpr hemp
    simp only [hemp', Bool.false_eq_true, if_false]
    cases hcol : collect_subs (n * 2) recommenders with
    | error e =>
      simp only [hcol]
      by_cases hsw : 0 < sw
      · rw [if_pos hsw]
        rfl
      · rw [if_neg hsw]
    | ok subs =>
      simp only [hcol, hybrid_combine]
      by_cases hsw : 0 < sw
      · rw [if_pos hsw, if_pos hsw]
        simp only [Except.map]
        rw [hybrid_core_eq_spec]
      · rw [if_neg hsw, if_neg hsw]
        rw [hybrid_core_eq_spec]

end TourismRec
